import Mathlib

/-!
Verification of the node-oci-registry-client repository against its
natural-language specification.

The development shallowly embeds the TypeScript sources:
- src/lib/registry-client-v2.ts  (registry client, auth, redirects, digests)
- src/unnamed common.ts          (parseIndex, parseRepo, parseRepoAndRef)
- src/unnamed www-authenticate.ts (challenge parser)
- src/unnamed docker-json-client.ts (response body and error helpers)

Machine words are Nat with explicit reduction mod 2 pow 32; byte streams are
lists of Nat; fallible code returns Except.  Network transports are modelled
as explicit response values or response-producing functions supplied to the
embedded operations.
-/

namespace RC

/-! ## 32-bit word helpers (Nat with explicit masking) -/

def word32Mod : Nat := 4294967296

def add32 (a b : Nat) : Nat := (a + b) % word32Mod

def rotr32 (n x : Nat) : Nat :=
  ((x >>> n) ||| (x <<< (32 - n))) &&& 4294967295

def chB (x y z : Nat) : Nat := (x &&& y) ^^^ ((x ^^^ 4294967295) &&& z)

def majB (x y z : Nat) : Nat := (x &&& y) ^^^ (x &&& z) ^^^ (y &&& z)

def smallSigma0 (x : Nat) : Nat := (rotr32 7 x) ^^^ (rotr32 18 x) ^^^ (x >>> 3)

def smallSigma1 (x : Nat) : Nat := (rotr32 17 x) ^^^ (rotr32 19 x) ^^^ (x >>> 10)

def bigSigma0 (x : Nat) : Nat := (rotr32 2 x) ^^^ (rotr32 13 x) ^^^ (rotr32 22 x)

def bigSigma1 (x : Nat) : Nat := (rotr32 6 x) ^^^ (rotr32 11 x) ^^^ (rotr32 25 x)

/-! ## SHA-256 (the crypto.createHash sha256 collaborator) -/

def sha256K : List Nat :=
  [1116352408, 1899447441, 3049323471, 3921009573,
   961987163, 1508970993, 2453635748, 2870763221,
   3624381080, 310598401, 607225278, 1426881987,
   1925078388, 2162078206, 2614888103, 3248222580,
   3835390401, 4022224774, 264347078, 604807628,
   770255983, 1249150122, 1555081692, 1996064986,
   2554220882, 2821834349, 2952996808, 3210313671,
   3336571891, 3584528711, 113926993, 338241895,
   666307205, 773529912, 1294757372, 1396182291,
   1695183700, 1986661051, 2177026350, 2456956037,
   2730485921, 2820302411, 3259730800, 3345764771,
   3516065817, 3600352804, 4094571909, 275423344,
   430227734, 506948616, 659060556, 883997877,
   958139571, 1322822218, 1537002063, 1747873779,
   1955562222, 2024104815, 2227730452, 2361852424,
   2428436474, 2756734187, 3204031479, 3329325298]

/-- Big-endian byte expansion of a value into the given number of bytes. -/
def bytesBE : Nat → Nat → List Nat
  | 0, _ => []
  | n + 1, v => bytesBE n (v >>> 8) ++ [v &&& 255]

/-- SHA-256 padding: append 0x80, zeros, and the 64-bit big-endian bit length. -/
def sha256Pad (msg : List Nat) : List Nat :=
  let l := msg.length
  let k := (64 - ((l + 9) % 64)) % 64
  msg ++ [0x80] ++ List.replicate k 0 ++ bytesBE 8 (8 * l)

/-- Group bytes into big-endian 32-bit words. -/
def wordsBE : List Nat → List Nat
  | b0 :: b1 :: b2 :: b3 :: rest =>
      ((((b0 <<< 8) ||| b1) <<< 8 ||| b2) <<< 8 ||| b3) :: wordsBE rest
  | _ => []

/-- Split a word list into chunks of 16 (message blocks), with fuel. -/
def chunk16 : Nat → List Nat → List (List Nat)
  | 0, _ => []
  | _, [] => []
  | fuel + 1, ws => ws.take 16 :: chunk16 fuel (ws.drop 16)

/-- Extend a 16-word block to the 64-word message schedule. -/
def extendSchedule : Nat → Array Nat → Array Nat
  | 0, ws => ws
  | fuel + 1, ws =>
      let n := ws.size
      let w := add32
        (add32 (ws.getD (n - 16) 0) (smallSigma0 (ws.getD (n - 15) 0)))
        (add32 (ws.getD (n - 7) 0) (smallSigma1 (ws.getD (n - 2) 0)))
      extendSchedule fuel (ws.push w)

structure Hash8 where
  a : Nat
  b : Nat
  c : Nat
  d : Nat
  e : Nat
  f : Nat
  g : Nat
  h : Nat
deriving DecidableEq

def sha256Init : Hash8 :=
  ⟨1779033703, 3144134277, 1013904242, 2773480762,
   1359893119, 2600822924, 528734635, 1541459225⟩

def sha256Round (s : Hash8) (k w : Nat) : Hash8 :=
  let t1 := add32 s.h (add32 (bigSigma1 s.e) (add32 (chB s.e s.f s.g) (add32 k w)))
  let t2 := add32 (bigSigma0 s.a) (majB s.a s.b s.c)
  ⟨add32 t1 t2, s.a, s.b, s.c, add32 s.d t1, s.e, s.f, s.g⟩

def sha256Compress (h : Hash8) (block : List Nat) : Hash8 :=
  let ws := extendSchedule 48 block.toArray
  let s := (List.zip sha256K ws.toList).foldl
    (fun st kw => sha256Round st kw.1 kw.2) h
  ⟨add32 h.a s.a, add32 h.b s.b, add32 h.c s.c, add32 h.d s.d,
   add32 h.e s.e, add32 h.f s.f, add32 h.g s.g, add32 h.h s.h⟩

/-- SHA-256 of a byte list, as 32 output bytes. -/
def sha256Bytes (msg : List Nat) : List Nat :=
  let ws := wordsBE (sha256Pad msg)
  let blocks := chunk16 ws.length ws
  let h := blocks.foldl sha256Compress sha256Init
  ([h.a, h.b, h.c, h.d, h.e, h.f, h.g, h.h].map (bytesBE 4)).flatten

def hexDigitChar (n : Nat) : Char :=
  if n < 10 then Char.ofNat (48 + n) else Char.ofNat (87 + n)

def byteToHex (b : Nat) : List Char := [hexDigitChar (b / 16), hexDigitChar (b % 16)]

def hexOfBytes (bs : List Nat) : String := ⟨(bs.map byteToHex).flatten⟩

def sha256Hex (msg : List Nat) : String := hexOfBytes (sha256Bytes msg)

/-- UTF-8 encoding of one code point. -/
def utf8Char (c : Char) : List Nat :=
  let n := c.toNat
  if n < 0x80 then [n]
  else if n < 0x800 then
    [0xC0 ||| (n >>> 6), 0x80 ||| (n &&& 0x3F)]
  else if n < 0x10000 then
    [0xE0 ||| (n >>> 12), 0x80 ||| ((n >>> 6) &&& 0x3F), 0x80 ||| (n &&& 0x3F)]
  else
    [0xF0 ||| (n >>> 18), 0x80 ||| ((n >>> 12) &&& 0x3F),
     0x80 ||| ((n >>> 6) &&& 0x3F), 0x80 ||| (n &&& 0x3F)]

def utf8Encode (s : String) : List Nat := (s.data.map utf8Char).flatten

/-- SHA-256 hex digest of the UTF-8 bytes of a string, as hash.update does
for a JS string argument. -/
def sha256HexOfString (s : String) : String := sha256Hex (utf8Encode s)

/-! ## JSON values and JSON.parse (the JSON collaborator used by the client)

JS values reachable from JSON.parse.  Numbers are modelled as rationals;
an absent value (the JS undefined) is modelled as the none of Option Json. -/

inductive Json where
  | null
  | bool (b : Bool)
  | num (q : Rat)
  | str (s : String)
  | arr (elems : List Json)
  | obj (members : List (String × Json))

def charLBrace : Char := Char.ofNat 123

def charRBrace : Char := Char.ofNat 125

def isJsonWs (c : Char) : Bool :=
  c = ' ' || c = '\t' || c = '\n' || c = '\r'

def skipWs : List Char → List Char
  | [] => []
  | c :: cs => if isJsonWs c then skipWs cs else c :: cs

def hexVal (c : Char) : Option Nat :=
  if '0' ≤ c && c ≤ '9' then some (c.toNat - 48)
  else if 'a' ≤ c && c ≤ 'f' then some (c.toNat - 87)
  else if 'A' ≤ c && c ≤ 'F' then some (c.toNat - 55)
  else none

/-- Body of a JSON string literal, after the opening quote. -/
def parseStringBody : Nat → List Char → Option (List Char × List Char)
  | 0, _ => none
  | _, [] => none
  | fuel + 1, c :: cs =>
    if c = '"' then some ([], cs)
    else if c = '\\' then
      match cs with
      | [] => none
      | e :: cs1 =>
        let decoded : Option (Char × List Char) :=
          if e = '"' then some ('"', cs1)
          else if e = '\\' then some ('\\', cs1)
          else if e = '/' then some ('/', cs1)
          else if e = 'b' then some (Char.ofNat 8, cs1)
          else if e = 'f' then some (Char.ofNat 12, cs1)
          else if e = 'n' then some ('\n', cs1)
          else if e = 'r' then some ('\r', cs1)
          else if e = 't' then some ('\t', cs1)
          else if e = 'u' then
            match cs1 with
            | h1 :: h2 :: h3 :: h4 :: cs2 =>
              match hexVal h1, hexVal h2, hexVal h3, hexVal h4 with
              | some v1, some v2, some v3, some v4 =>
                  some (Char.ofNat (((v1 * 16 + v2) * 16 + v3) * 16 + v4), cs2)
              | _, _, _, _ => none
            | _ => none
          else none
        match decoded with
        | none => none
        | some (d, cs2) =>
          match parseStringBody fuel cs2 with
          | none => none
          | some (tl, rest) => some (d :: tl, rest)
    else if c.toNat < 32 then none
    else
      match parseStringBody fuel cs with
      | none => none
      | some (tl, rest) => some (c :: tl, rest)

def digitsToNat (ds : List Char) : Nat :=
  ds.foldl (fun a c => a * 10 + (c.toNat - 48)) 0

/-- JSON number literal, per the ECMA JSON grammar. -/
def parseNumber (cs : List Char) : Option (Json × List Char) :=
  let signed : Bool × List Char :=
    match cs with
    | '-' :: r => (true, r)
    | _ => (false, cs)
  let neg := signed.1
  let afterSign := signed.2
  let intPart : Option (List Char × List Char) :=
    match afterSign with
    | '0' :: r =>
      match r with
      | d :: _ => if d.isDigit then none else some (['0'], r)
      | [] => some (['0'], [])
    | c :: _ =>
      if c.isDigit then
        let sp := afterSign.span Char.isDigit
        some (sp.1, sp.2)
      else none
    | [] => none
  match intPart with
  | none => none
  | some (ids, r1) =>
    let fracPart : Option (List Char × List Char) :=
      match r1 with
      | '.' :: r2 =>
        let sp := r2.span Char.isDigit
        if sp.1.isEmpty then none else some (sp.1, sp.2)
      | _ => some ([], r1)
    match fracPart with
    | none => none
    | some (fds, r3) =>
      let expPart : Option (Bool × List Char × List Char) :=
        match r3 with
        | e :: r4 =>
          if e = 'e' || e = 'E' then
            let se : Bool × List Char :=
              match r4 with
              | '-' :: r5 => (true, r5)
              | '+' :: r5 => (false, r5)
              | _ => (false, r4)
            let sp := se.2.span Char.isDigit
            if sp.1.isEmpty then none else some (se.1, sp.1, sp.2)
          else some (false, [], r3)
        | [] => some (false, [], [])
      match expPart with
      | none => none
      | some (eneg, eds, rest) =>
        let digits : Int := (digitsToNat (ids ++ fds) : Int)
        let signedDigits : Int := if neg then -digits else digits
        let eGiven : Int :=
          if eds.isEmpty then 0
          else if eneg then -(digitsToNat eds : Int) else (digitsToNat eds : Int)
        let eVal : Int := eGiven - (fds.length : Int)
        let value : Rat :=
          if 0 ≤ eVal then mkRat (signedDigits * ((10 ^ eVal.toNat : Nat) : Int)) 1
          else mkRat signedDigits (10 ^ (-eVal).toNat)
        some (Json.num value, rest)

/-- Intermediate results of the JSON parser: a value, a nonempty object
member list, or a nonempty array element list. -/
inductive ParseOut where
  | val (j : Json)
  | members (ms : List (String × Json))
  | elems (es : List Json)

/-- The JSON grammar, as one fuel-structural function; mode 0 parses a
value, mode 1 a nonempty member list after the opening brace, mode 2 a
nonempty element list after the opening bracket.  Each result carries the
unconsumed suffix. -/
def parseAny : Nat → Nat → List Char → Option (ParseOut × List Char)
  | 0, _, _ => none
  | fuel + 1, mode, cs =>
    if mode = 0 then
      match skipWs cs with
      | [] => none
      | c :: rest =>
        if c = '"' then
          match parseStringBody (fuel + 1) rest with
          | none => none
          | some (body, r) => some (.val (Json.str ⟨body⟩), r)
        else if c = charLBrace then
          match skipWs rest with
          | d :: r2 =>
            if d = charRBrace then some (.val (Json.obj []), r2)
            else
              match parseAny fuel 1 (d :: r2) with
              | some (.members ms, r3) => some (.val (Json.obj ms), r3)
              | _ => none
          | [] => none
        else if c = '[' then
          match skipWs rest with
          | d :: r2 =>
            if d = ']' then some (.val (Json.arr []), r2)
            else
              match parseAny fuel 2 (d :: r2) with
              | some (.elems es, r3) => some (.val (Json.arr es), r3)
              | _ => none
          | [] => none
        else
          match c :: rest with
          | 't' :: 'r' :: 'u' :: 'e' :: r => some (.val (Json.bool true), r)
          | 'f' :: 'a' :: 'l' :: 's' :: 'e' :: r => some (.val (Json.bool false), r)
          | 'n' :: 'u' :: 'l' :: 'l' :: r => some (.val Json.null, r)
          | l =>
            match l with
            | c2 :: _ =>
              if c2 = '-' || c2.isDigit then
                match parseNumber l with
                | none => none
                | some (j, r) => some (.val j, r)
              else none
            | [] => none
    else if mode = 1 then
      match skipWs cs with
      | k :: r1 =>
        if k = '"' then
          match parseStringBody (fuel + 1) r1 with
          | none => none
          | some (key, r2) =>
            match skipWs r2 with
            | ':' :: r3 =>
              match parseAny fuel 0 r3 with
              | some (.val v, r4) =>
                (match skipWs r4 with
                | ',' :: r5 =>
                  match parseAny fuel 1 r5 with
                  | some (.members ms, r6) => some (.members ((⟨key⟩, v) :: ms), r6)
                  | _ => none
                | d :: r5 =>
                  if d = charRBrace then some (.members [(⟨key⟩, v)], r5) else none
                | [] => none)
              | _ => none
            | _ => none
        else none
      | [] => none
    else
      match parseAny fuel 0 cs with
      | some (.val v, r1) =>
        (match skipWs r1 with
        | ',' :: r2 =>
          match parseAny fuel 2 r2 with
          | some (.elems es, r3) => some (.elems (v :: es), r3)
          | _ => none
        | ']' :: r2 => some (.elems [v], r2)
        | _ => none)
      | _ => none

/-- One JSON value, with fuel; returns the value and the unconsumed suffix. -/
def parseValue (fuel : Nat) (cs : List Char) : Option (Json × List Char) :=
  match parseAny fuel 0 cs with
  | some (.val j, r) => some (j, r)
  | _ => none

/-- JSON.parse: a complete JSON text, allowing surrounding whitespace. -/
def parseJson (s : String) : Option Json :=
  match parseValue (s.length + 1) s.data with
  | none => none
  | some (v, rest) => if (skipWs rest).isEmpty then some v else none

/-- JS property access on a parsed JSON value; none is the JS undefined.
Later duplicate keys overwrite earlier ones, as in JSON.parse. -/
def jsGetProp (j : Json) (k : String) : Option Json :=
  match j with
  | Json.obj ms => ms.foldl (fun acc p => if p.1 = k then some p.2 else acc) none
  | _ => none

/-- JS index access on a parsed JSON value; none is the JS undefined. -/
def jsIndex (j : Json) (i : Nat) : Option Json :=
  match j with
  | Json.arr l => l.get? i
  | _ => none

/-- JS truthiness of a possibly-undefined parsed JSON value. -/
def truthy : Option Json → Bool
  | none => false
  | some Json.null => false
  | some (Json.bool b) => b
  | some (Json.num q) => decide (q ≠ 0)
  | some (Json.str s) => decide (s ≠ "")
  | some (Json.arr _) => true
  | some (Json.obj _) => true

def isArrayJs : Option Json → Bool
  | some (Json.arr _) => true
  | _ => false

def isStringJs : Option Json → Bool
  | some (Json.str _) => true
  | _ => false

/-- Decimal rendering of a rational with a bounded number of fraction
digits; on the integral values that actually occur this agrees with the JS
number-to-string conversion (non-integral formatting is approximated). -/
def ratDecimalString (q : Rat) : String :=
  let sign := if q < 0 then "-" else ""
  let aq := if q < 0 then -q else q
  let ip := aq.floor.toNat
  let rec fracDigits : Nat → Rat → List Char
    | 0, _ => []
    | fuel + 1, r =>
      if r = 0 then []
      else
        let r10 := r * 10
        let d := r10.floor.toNat
        Char.ofNat (48 + d) :: fracDigits fuel (r10 - (d : Rat))
  let fds := fracDigits 20 (aq - (ip : Rat))
  if fds.isEmpty then sign ++ toString ip
  else sign ++ toString ip ++ "." ++ (⟨fds⟩ : String)

mutual

/-- The JS String() / toString() coercion on parsed JSON values. -/
def jsToString : Json → String
  | Json.null => "null"
  | Json.bool b => if b then "true" else "false"
  | Json.str s => s
  | Json.num q => ratDecimalString q
  | Json.arr l => String.intercalate "," (jsToStringList l)
  | Json.obj _ => "[object Object]"

def jsToStringList : List Json → List String
  | [] => []
  | Json.null :: tl => "" :: jsToStringList tl
  | j :: tl => jsToString j :: jsToStringList tl

end

/-- String conversion applied when a JS value is concatenated to a string. -/
def jsDisplay : Option Json → String
  | none => "undefined"
  | some j => jsToString j

/-! ## JS string primitives used by common.ts

The name-parsing code works charwise; it is embedded over List Char, with
the JS indexOf / lastIndexOf / slice / split operations spelled out. -/

/-- Index of the first occurrence of a pattern (JS indexOf, none for -1). -/
def idxOfSub (pat : List Char) : List Char → Option Nat
  | [] => if pat.isEmpty then some 0 else none
  | c :: tl =>
    if pat.isPrefixOf (c :: tl) then some 0
    else (idxOfSub pat tl).map (· + 1)

/-- Index of the first occurrence of a char at or after position from
(JS indexOf with a start index). -/
def idxOfCharFrom (c : Char) (s : List Char) (from0 : Nat) : Option Nat :=
  (idxOfSub [c] (s.drop from0)).map (· + from0)

/-- Index of the last occurrence of a char (JS lastIndexOf, none for -1). -/
def lastIdxOf (c : Char) : List Char → Option Nat
  | [] => none
  | x :: tl =>
    match lastIdxOf c tl with
    | some n => some (n + 1)
    | none => if x = c then some 0 else none

/-- s.slice(a, b) for nonnegative indices. -/
def jsSlice (s : List Char) (a b : Nat) : List Char := (s.take b).drop a

/-- s.slice(a) for a nonnegative index. -/
def jsSliceFrom (s : List Char) (a : Nat) : List Char := s.drop a

def containsChar (s : List Char) (c : Char) : Bool := (idxOfSub [c] s).isSome

def isWordChar (c : Char) : Bool :=
  ('a' ≤ c && c ≤ 'z') || ('A' ≤ c && c ≤ 'Z') || c.isDigit || c = '_'

def isJsWs (c : Char) : Bool :=
  c = ' ' || c = '\t' || c = '\n' || c = '\r' || c = Char.ofNat 12 || c = Char.ofNat 11

/-- JS String.prototype.trim. -/
def jsTrim (s : List Char) : List Char :=
  ((s.dropWhile isJsWs).reverse.dropWhile isJsWs).reverse

def jsToLowerChar (c : Char) : Char :=
  if 'A' ≤ c && c ≤ 'Z' then Char.ofNat (c.toNat + 32) else c

/-- JS String.prototype.toLowerCase on the ASCII range. -/
def jsToLower (s : String) : String := ⟨s.data.map jsToLowerChar⟩

/-! ## common.ts: index and repository name parsing -/

def DEFAULT_INDEX_NAME : List Char := "docker.io".data

def DEFAULT_LOGIN_SERVERNAME : List Char := "https://index.docker.io/v1/".data

def DEFAULT_TAG : List Char := "latest".data

/-- VALID_NS regex, [a-z0-9._-] for every char. -/
def validNsChars (s : List Char) : Bool :=
  s.all fun c => ('a' ≤ c && c ≤ 'z') || c.isDigit || c = '.' || c = '_' || c = '-'

/-- VALID_REPO regex, [a-z0-9_/.-] for every char. -/
def validRepoChars (s : List Char) : Bool :=
  s.all fun c => ('a' ≤ c && c ≤ 'z') || c.isDigit || c = '_' || c = '/' || c = '.' || c = '-'

/-- splitIntoTwo from common.ts: split at the first occurrence of sep. -/
def splitIntoTwo (str : List Char) (sep : List Char) : List (List Char) :=
  match idxOfSub sep str with
  | none => [str]
  | some i => [jsSlice str 0 i, jsSliceFrom str (i + sep.length)]

inductive Scheme where
  | http
  | https
deriving DecidableEq

structure RegistryIndex where
  name : List Char
  official : Bool
  scheme : Scheme
deriving DecidableEq

/-- isLocalhost from common.ts. -/
def isLocalhost (host : List Char) : Bool :=
  let lead := (splitIntoTwo host [':']).headD []
  lead = "localhost".data || lead = "127.0.0.1".data ||
    (idxOfSub "::1".data host).isSome

/-- parseIndex from common.ts; Except carries the thrown error message. -/
def parseIndex (arg : Option (List Char)) : Except String RegistryIndex := do
  let argS := arg.getD []
  if argS.isEmpty || argS = DEFAULT_LOGIN_SERVERNAME then
    return ⟨DEFAULT_INDEX_NAME, true, Scheme.https⟩
  let schemeName : Scheme × List Char ←
    match idxOfSub "://".data argS with
    | some protoSepIdx =>
      let foundScheme := jsSlice argS 0 protoSepIdx
      if foundScheme = "http".data then
        pure (Scheme.http, jsSliceFrom argS (protoSepIdx + 3))
      else if foundScheme = "https".data then
        pure (Scheme.https, jsSliceFrom argS (protoSepIdx + 3))
      else
        throw ("invalid index scheme, must be " ++ "\"http\" or \"https\": " ++ ⟨argS⟩)
    | none =>
      pure (if isLocalhost argS then Scheme.http else Scheme.https, argS)
  let scheme := schemeName.1
  let indexName0 := schemeName.2
  if indexName0.isEmpty then
    throw ("invalid index, empty host: " ++ ⟨argS⟩)
  if !containsChar indexName0 '.' && !containsChar indexName0 ':' &&
      indexName0 ≠ "localhost".data then
    throw ("invalid index, \"" ++ (⟨indexName0⟩ : String) ++
      "\" does not look like a valid host: " ++ ⟨argS⟩)
  let indexName1 :=
    if indexName0.getLast? = some '/' then jsSlice indexName0 0 (indexName0.length - 1)
    else indexName0
  if containsChar indexName1 '/' then
    throw ("invalid index, trailing repo: " ++ ⟨argS⟩)
  let indexName2 :=
    if indexName1 = "index.".data ++ DEFAULT_INDEX_NAME then DEFAULT_INDEX_NAME
    else indexName1
  let index : RegistryIndex :=
    ⟨indexName2, indexName2 = DEFAULT_INDEX_NAME, scheme⟩
  if index.official && index.scheme = Scheme.http then
    throw ("invalid index, plaintext HTTP to official index " ++
      "is disallowed: " ++ ⟨argS⟩)
  return index

structure RegistryRepo where
  index : RegistryIndex
  official : Bool
  remoteName : List Char
  localName : List Char
  canonicalName : List Char
deriving DecidableEq

/-- The defaultIndex argument of parseRepo: absent, a string, or a parsed
index object. -/
inductive DefaultIndexArg where
  | absent
  | str (s : List Char)
  | idx (i : RegistryIndex)

/-- parseRepo from common.ts. -/
def parseRepo (arg : List Char) (defaultIndex : DefaultIndexArg := .absent) :
    Except String RegistryRepo := do
  let indexRemote : RegistryIndex × List Char ←
    match idxOfSub "://".data arg with
    | some protoSepIdx =>
      match idxOfCharFrom '/' arg (protoSepIdx + 3) with
      | none =>
        throw ("invalid repository name, no \"/REPO\" after " ++ "hostame: " ++ ⟨arg⟩)
      | some slashIdx => do
        let indexName := jsSlice arg 0 slashIdx
        let remoteNameRaw := jsSliceFrom arg (slashIdx + 1)
        let index ← parseIndex (some indexName)
        pure (index, remoteNameRaw)
    | none =>
      let parts := splitIntoTwo arg ['/']
      let head := parts.headD []
      if parts.length = 1 ||
          (!containsChar head '.' && !containsChar head ':' &&
            head ≠ "localhost".data) then do
        let index ←
          match defaultIndex with
          | .absent => parseIndex none
          | .str s => parseIndex (some s)
          | .idx i => pure i
        pure (index, arg)
      else do
        let index ← parseIndex (some head)
        pure (index, (parts.getD 1 []))
  let index := indexRemote.1
  let remoteNameRaw := indexRemote.2
  let nameParts := splitIntoTwo remoteNameRaw ['/']
  let nsName : List Char × List Char ←
    if nameParts.length = 2 then do
      let ns := nameParts.headD []
      let name := nameParts.getD 1 []
      if ns.length < 2 || ns.length > 255 then
        throw ("invalid repository namespace, must be between " ++
          "2 and 255 characters: " ++ ⟨ns⟩)
      if !validNsChars ns then
        throw ("invalid repository namespace, may only contain " ++
          "[a-z0-9._-] characters: " ++ ⟨ns⟩)
      if ns.head? = some '-' && ns.getLast? = some '-' then
        throw ("invalid repository namespace, cannot start or " ++
          "end with a hypen: " ++ ⟨ns⟩)
      if (idxOfSub "--".data ns).isSome then
        throw ("invalid repository namespace, cannot contain " ++
          "consecutive hyphens: " ++ ⟨ns⟩)
      pure (ns, name)
    else
      pure (if index.official then "library".data else [], remoteNameRaw)
  let ns := nsName.1
  let name := nsName.2
  if !validRepoChars name then
    throw ("invalid repository name, may only contain " ++
      "[a-z0-9_/.-] characters: " ++ ⟨name⟩)
  let official := index.official && ns = "library".data
  let remoteName := if !ns.isEmpty then ns ++ "/".data ++ name else name
  let localName :=
    if index.official then (if official then name else remoteName)
    else index.name ++ "/".data ++ remoteName
  let canonicalName :=
    if index.official then DEFAULT_INDEX_NAME ++ "/".data ++ localName
    else localName
  return ⟨index, official, remoteName, localName, canonicalName⟩

structure RegistryImage extends RegistryRepo where
  digest : Option (List Char)
  tag : Option (List Char)
  canonicalRef : List Char
deriving DecidableEq

/-- parseRepoAndRef from common.ts. -/
def parseRepoAndRef (arg0 : List Char) (defaultIndex : DefaultIndexArg := .absent) :
    Except String RegistryImage := do
  let digestArg : Option (List Char) × Option (List Char) × List Char :=
    match lastIdxOf '@' arg0 with
    | some atIdx => (some (jsSliceFrom arg0 (atIdx + 1)), none, jsSlice arg0 0 atIdx)
    | none => (none, some DEFAULT_TAG, arg0)
  let digest := digestArg.1
  let tag0 := digestArg.2.1
  let arg1 := digestArg.2.2
  let tagArg : Option (List Char) × List Char :=
    match lastIdxOf ':' arg1, lastIdxOf '/' arg1 with
    | some colonIdx, some slashIdx =>
      if colonIdx > slashIdx then
        (some (jsSliceFrom arg1 (colonIdx + 1)), jsSlice arg1 0 colonIdx)
      else (tag0, arg1)
    | some colonIdx, none =>
      (some (jsSliceFrom arg1 (colonIdx + 1)), jsSlice arg1 0 colonIdx)
    | none, _ => (tag0, arg1)
  let tag := tagArg.1
  let arg2 := tagArg.2
  let repo ← parseRepo arg2 defaultIndex
  return { repo with
    digest := digest
    tag := tag
    canonicalRef :=
      repo.canonicalName ++
        (match tag with
          | some t => if t.isEmpty then [] else ":".data ++ t
          | none => []) ++
        (match digest with
          | some d => if d.isEmpty then [] else "@".data ++ d
          | none => []) }

/-! ## JSON.stringify -/

def jsonEscapeChar (c : Char) : List Char :=
  if c = '"' then ['\\', '"']
  else if c = '\\' then ['\\', '\\']
  else if c = '\n' then ['\\', 'n']
  else if c = '\r' then ['\\', 'r']
  else if c = '\t' then ['\\', 't']
  else if c = Char.ofNat 8 then ['\\', 'b']
  else if c = Char.ofNat 12 then ['\\', 'f']
  else if c.toNat < 32 then
    ['\\', 'u', '0', '0', hexDigitChar (c.toNat / 16), hexDigitChar (c.toNat % 16)]
  else [c]

def jsonQuote (s : String) : String :=
  "\"" ++ (⟨(s.data.map jsonEscapeChar).flatten⟩ : String) ++ "\""

mutual

def jsonStringify : Json → String
  | Json.null => "null"
  | Json.bool b => if b then "true" else "false"
  | Json.num q => ratDecimalString q
  | Json.str s => jsonQuote s
  | Json.arr l => "[" ++ String.intercalate "," (jsonStringifyList l) ++ "]"
  | Json.obj ms =>
      (⟨[charLBrace]⟩ : String) ++ String.intercalate "," (jsonStringifyMembers ms) ++
        (⟨[charRBrace]⟩ : String)

def jsonStringifyList : List Json → List String
  | [] => []
  | j :: tl => jsonStringify j :: jsonStringifyList tl

def jsonStringifyMembers : List (String × Json) → List String
  | [] => []
  | (k, v) :: tl => (jsonQuote k ++ ":" ++ jsonStringify v) :: jsonStringifyMembers tl

end

/-! ## Headers, responses and error values -/

/-- The fetch Headers object: an association list; all names used by the
client are already lowercase. -/
abbrev HeadersM := List (String × String)

def hGet (h : HeadersM) (k : String) : Option String :=
  match h with
  | [] => none
  | p :: tl => if p.1 = k then some p.2 else hGet tl k

def hSet (h : HeadersM) (k v : String) : HeadersM :=
  match h with
  | [] => [(k, v)]
  | p :: tl => if p.1 = k then (k, v) :: hDeleteK tl k else p :: hSet tl k v
where
  hDeleteK (h : HeadersM) (k : String) : HeadersM :=
    match h with
    | [] => []
    | p :: tl => if p.1 = k then hDeleteK tl k else p :: hDeleteK tl k

def hDelete (h : HeadersM) (k : String) : HeadersM :=
  match h with
  | [] => []
  | p :: tl => if p.1 = k then hDelete tl k else p :: hDelete tl k

def emptyHeaders : HeadersM := []

/-- JS truthiness of a nullable header value (null or empty string is falsy). -/
def truthyStr : Option String → Bool
  | none => false
  | some s => s ≠ ""

/-- An HTTP response: status, headers, the decoded body text (for JSON
endpoints) and the body byte stream (for blob endpoints).  The content-md5
opportunistic check of docker-json-client is outside the model; no claim
concerns it and responses are modelled without a content-md5 header. -/
structure Resp where
  status : Nat
  headers : HeadersM
  body : String
  chunks : List (List Nat)
deriving DecidableEq

/-- Registry error shape collected by dockerErrors (kept as parsed JSON). -/
def RegErrs := List Json

/-- The error values the embedded client can produce.  httpError is the
HttpError class (its resp field is what supportsV2 tests for truthiness);
jsError is a plain Error; transport is a fetch-level failure that carries
no response; crash is a JS TypeError from accessing a property of
undefined or null. -/
inductive MErr where
  | httpError (resp : Resp) (errors : RegErrs) (message : String)
  | jsError (message : String)
  | transport (message : String)
  | badDigest (message : String)
  | tooManyRedirects (message : String)
  | uploadError (message : String)
  | crash

/-- dockerJson from docker-json-client.ts: none is the JS undefined
returned for an effectively empty body. -/
def dockerJson (r : Resp) : Except MErr (Option Json) :=
  if ((jsTrim r.body.data).length = 0) then .ok none
  else
    match parseJson r.body with
    | some j => .ok (some j)
    | none => .error (.jsError "Invalid JSON in response: ")

/-- The JS optional chaining v?.k on a possibly undefined value. -/
def optChain (v : Option Json) (k : String) : Option Json :=
  match v with
  | none => none
  | some Json.null => none
  | some j => jsGetProp j k

/-- JS property access that crashes (TypeError) on undefined and null. -/
def jsProp (v : Option Json) (k : String) : Except Unit (Option Json) :=
  match v with
  | none => .error ()
  | some Json.null => .error ()
  | some j => .ok (jsGetProp j k)

/-- dockerErrors from docker-json-client.ts.  The Except models the
TypeError thrown when obj.errors is present but not an array (the as-any
cast followed by filter). -/
def dockerErrors (r : Resp) : Except Unit (List Json) := do
  let obj : Option Json :=
    match dockerJson r with
    | .ok v => v
    | .error _ => some Json.null
  let errObj : List Json ←
    if truthy (optChain obj "error") then
      pure [(optChain obj "error").getD Json.null]
    else
      match optChain obj "errors" with
      | some (Json.arr l) => pure l
      | some Json.null => pure (match obj with | some o => if truthy obj then [o] else [] | none => [])
      | some _ => .error ()
      | none => pure (match obj with | some o => if truthy obj then [o] else [] | none => [])
  return errObj.filter fun x => isStringJs (jsGetProp x "message")

/-- Element display inside the bracketed join of dockerThrowable
(JS Array.join renders undefined and null as the empty string). -/
def jsJoinElem : Option Json → String
  | none => ""
  | some Json.null => ""
  | some j => jsToString j

/-- The error list and message assembled by dockerThrowable from
docker-json-client.ts. -/
def dockerThrowableParts (r : Resp) (baseMsg : String) : RegErrs × String :=
  if "text/html".data.isPrefixOf ((hGet r.headers "content-type").getD "").data then
    ([], baseMsg ++ " (w/ HTML body)")
  else
    match (if r.status ≥ 400 then dockerErrors r else .ok []) with
    | .error _ =>
        ([], baseMsg ++ " - and failed to parse error body: ")
    | .ok errors0 =>
      let errors :=
        if errors0.isEmpty then
          (if r.body.length > 1 then
            [Json.obj [("message", Json.str ⟨r.body.data.take 512⟩)]]
          else [])
        else errors0
      let errorTexts := errors.map fun x =>
        "    " ++ String.intercalate ": "
          [jsJoinElem (jsGetProp x "code"), jsJoinElem (jsGetProp x "message"),
            if truthy (jsGetProp x "detail") then
              jsonStringify ((jsGetProp x "detail").getD Json.null)
            else ""]
      (errors, String.intercalate "\n" (baseMsg :: errorTexts))

/-- dockerThrowable from docker-json-client.ts, as the HttpError value the
client will throw for an errored response. -/
def dockerThrowable (r : Resp) (baseMsg : String) : MErr :=
  .httpError r (dockerThrowableParts r baseMsg).1 (dockerThrowableParts r baseMsg).2

/-- DockerJsonClient.request: the expectStatus check turning an unexpected
status into a thrown dockerThrowable.  The raw argument is the fetch
outcome (a transport error or a response). -/
def requestCheck (expect : List Nat) (path : String) (raw : Except MErr Resp) :
    Except MErr Resp :=
  match raw with
  | .error e => .error e
  | .ok r =>
    if expect.contains r.status then .ok r
    else .error (dockerThrowable r ("Unexpected HTTP " ++ toString r.status ++ " from " ++ path))

/-! ## www-authenticate.ts: the challenge parser -/

/-- Leftmost match of the regex (word+)(ws+)(rest) used to split a
challenge header into scheme and parameter text (ParseAuth), with fuel. -/
def findAuthMatchGo : Nat → List Char → Option (List Char × List Char)
  | 0, _ => none
  | _, [] => none
  | fuel + 1, c :: tl =>
    if isWordChar c then
      let run := (c :: tl).takeWhile isWordChar
      let afterRun := (c :: tl).dropWhile isWordChar
      let ws := afterRun.takeWhile isJsWs
      if ws.isEmpty then
        findAuthMatchGo fuel afterRun
      else
        some (run, afterRun.dropWhile isJsWs)
    else findAuthMatchGo fuel tl

def findAuthMatch (s : List Char) : Option (List Char × List Char) :=
  findAuthMatchGo (s.length + 1) s

def isSepChar (c : Char) : Bool := c = '"' || c = ',' || c = '='

/-- JS header.split(Separators) with the separator captured: runs of other
characters interleaved with single separator characters, empty runs kept. -/
def splitKeepSeps : List Char → List (List Char)
  | [] => [[]]
  | c :: tl =>
    let rest := splitKeepSeps tl
    if isSepChar c then [] :: [c] :: rest
    else
      match rest with
      | r :: rs => (c :: r) :: rs
      | [] => [[c]]

/-- Assignment into this.parms (later assignment for a key overwrites). -/
def parmsSet (parms : List (List Char × List Char)) (k v : List Char) :
    List (List Char × List Char) :=
  match parms with
  | [] => [(k, v)]
  | p :: tl => if p.1 = k then (k, v) :: tl else p :: parmsSet tl k v

/-- The token state machine of Parser.parse_params; states are the numeric
states of the source (0 token, 1 expect equals, 2 expect value, 3 quoted,
8 end quote, 9 expect comma); the Sum result is either the parameter map
or the error string the source returns. -/
def parseParamsGo (fuel : Nat) (state : Nat) (key value : List Char)
    (parms : List (List Char × List Char)) (toks : List (List Char)) :
    Sum String (List (List Char × List Char)) :=
  match fuel with
  | 0 => .inl "out of fuel"
  | fuel + 1 =>
    match toks with
    | [] =>
      if state = 0 || state = 9 then .inr parms
      else if state = 8 then .inr (parmsSet parms key value)
      else .inl "Unexpected end of www-authenticate value."
    | tok :: rest =>
      if tok.isEmpty then parseParamsGo fuel state key value parms rest
      else if state = 0 then
        parseParamsGo fuel 1 (jsTrim tok) value parms rest
      else if state = 1 then
        if tok ≠ ['='] then .inl ("Equal sign was expected after " ++ ⟨key⟩)
        else parseParamsGo fuel 2 key value parms rest
      else if state = 2 then
        if tok = ['"'] then parseParamsGo fuel 3 key [] parms rest
        else parseParamsGo fuel 9 key (jsTrim tok) (parmsSet parms key (jsTrim tok)) rest
      else if state = 3 then
        if tok = ['"'] then parseParamsGo fuel 8 key value parms rest
        else parseParamsGo fuel 3 key (value ++ tok) parms rest
      else if state = 8 then
        if tok = ['"'] then parseParamsGo fuel 3 key (value ++ ['"']) parms rest
        else if tok = [','] then
          parseParamsGo fuel 0 key value (parmsSet parms key value) rest
        else .inl ("Unexpected token (" ++ (⟨tok⟩ : String) ++ ") after " ++ (⟨value⟩ : String) ++ "\"")
      else if state = 9 then
        if tok ≠ [','] then .inl ("Comma expected after " ++ ⟨value⟩)
        else parseParamsGo fuel 0 key value parms rest
      else .inl "bad state"

structure Challenge where
  scheme : String
  parms : List (List Char × List Char)

def challengeParm (ch : Challenge) (k : String) : Option String :=
  (ch.parms.foldl (fun acc p => if p.1 = k.data then some p.2 else acc) none).map
    fun v => ⟨v⟩

/-- new Parse_WWW_Authenticate(header), then the err check performed by
_parseWWWAuthenticate in registry-client-v2.ts.  A header that does not
match the scheme regex at all crashes on the non-null assertion (JS
TypeError), modelled as MErr.crash. -/
def parseWWWAuthenticate (header : String) : Except MErr Challenge :=
  match findAuthMatch header.data with
  | none => .error .crash
  | some (scheme, paramText) =>
    let toks := splitKeepSeps paramText
    match parseParamsGo (toks.length + 1) 0 [] [] [] toks with
    | .inl err =>
        .error (.jsError ("could not parse WWW-Authenticate header \"" ++ header ++ "\": " ++ err))
    | .inr parms => .ok ⟨⟨scheme⟩, parms⟩

/-! ## Percent encoders and base64 (URL / URLSearchParams / btoa collaborators) -/

def hexByteUpper (b : Nat) : List Char :=
  let hi := b / 16
  let lo := b % 16
  let d := fun n => if n < 10 then Char.ofNat (48 + n) else Char.ofNat (55 + n)
  ['%', d hi, d lo]

/-- Characters that application/x-www-form-urlencoded leaves unescaped. -/
def formUnescaped (c : Char) : Bool :=
  ('a' ≤ c && c ≤ 'z') || ('A' ≤ c && c ≤ 'Z') || c.isDigit ||
    c = '*' || c = '-' || c = '.' || c = '_'

/-- URLSearchParams component serialization. -/
def formUrlEncode (s : String) : String :=
  ⟨(s.data.map fun c =>
      if formUnescaped c then [c]
      else if c = ' ' then ['+']
      else (utf8Char c).map hexByteUpper |>.flatten).flatten⟩

/-- URLSearchParams.toString for an ordered parameter list. -/
def urlSearchParamsToString (q : List (String × String)) : String :=
  String.intercalate "&" (q.map fun p => formUrlEncode p.1 ++ "=" ++ formUrlEncode p.2)

/-- Characters encodeURI leaves unescaped. -/
def encodeUriUnescaped (c : Char) : Bool :=
  ('a' ≤ c && c ≤ 'z') || ('A' ≤ c && c ≤ 'Z') || c.isDigit ||
    c = ';' || c = ',' || c = '/' || c = '?' || c = ':' || c = '@' ||
    c = '&' || c = '=' || c = '+' || c = '$' || c = '-' || c = '_' ||
    c = '.' || c = '!' || c = '~' || c = '*' || c = '\'' || c = '(' ||
    c = ')' || c = '#'

def encodeURI (s : String) : String :=
  ⟨(s.data.map fun c =>
      if encodeUriUnescaped c then [c]
      else (utf8Char c).map hexByteUpper |>.flatten).flatten⟩

def base64Alphabet : List Char :=
  "ABCDEFGHIJKLMNOPQRSTUVWXYZabcdefghijklmnopqrstuvwxyz0123456789+/".data

def base64Group : List Nat → List Char
  | [b0] =>
    let n := b0 <<< 16
    [base64Alphabet.getD (n >>> 18 &&& 63) 'A', base64Alphabet.getD (n >>> 12 &&& 63) 'A',
      '=', '=']
  | [b0, b1] =>
    let n := (b0 <<< 16) ||| (b1 <<< 8)
    [base64Alphabet.getD (n >>> 18 &&& 63) 'A', base64Alphabet.getD (n >>> 12 &&& 63) 'A',
      base64Alphabet.getD (n >>> 6 &&& 63) 'A', '=']
  | [b0, b1, b2] =>
    let n := (b0 <<< 16) ||| (b1 <<< 8) ||| b2
    [base64Alphabet.getD (n >>> 18 &&& 63) 'A', base64Alphabet.getD (n >>> 12 &&& 63) 'A',
      base64Alphabet.getD (n >>> 6 &&& 63) 'A', base64Alphabet.getD (n &&& 63) 'A']
  | _ => []

def base64Chunks : Nat → List Nat → List (List Nat)
  | 0, _ => []
  | _, [] => []
  | fuel + 1, bs => bs.take 3 :: base64Chunks fuel (bs.drop 3)

/-- btoa on a latin1 JS string (the characters must be code points below
256, which holds for every use in the client). -/
def btoa (s : String) : String :=
  let bytes := s.data.map Char.toNat
  ⟨((base64Chunks bytes.length bytes).map base64Group).flatten⟩

/-! ## registry-client-v2.ts -/

inductive AuthInfo where
  | noAuth
  | basic (username password : String)
  | bearer (token : String)
deriving DecidableEq

/-- _setAuthHeaderFromAuthInfo. -/
def setAuthHeaderFromAuthInfo (headers : HeadersM) (authInfo : Option AuthInfo) :
    HeadersM :=
  match authInfo with
  | some (.bearer token) => hSet headers "authorization" ("Bearer " ++ token)
  | some (.basic username password) =>
      hSet headers "authorization" ("Basic " ++ btoa (username ++ ":" ++ password))
  | _ => hDelete headers "authorization"

/-- _getRegistryErrorMessage; the value is the JS value returned (none
being undefined), the Unit error a TypeError from undefined indexing. -/
def getRegistryErrorMessage (err : Json) : Except Unit (Option Json) := do
  let body := jsGetProp err "body"
  if truthy body && isArrayJs (optChain body "errors") &&
      truthy ((optChain body "errors").bind fun es => jsIndex es 0) then
    jsProp ((optChain body "errors").bind fun es => jsIndex es 0) "message"
  else if truthy body && truthy (optChain body "details") then
    .ok (optChain body "details")
  else if isArrayJs (jsGetProp err "errors") then
    let e0 := (jsGetProp err "errors").bind fun es => jsIndex es 0
    let msg ← jsProp e0 "message"
    if truthy msg then .ok msg
    else nextSteps err
  else nextSteps err
where
  nextSteps (err : Json) : Except Unit (Option Json) :=
    if truthy (jsGetProp err "message") then .ok (jsGetProp err "message")
    else if truthy (jsGetProp err "details") then .ok (jsGetProp err "details")
    else .ok (some (Json.str (jsToString err)))

/-- _makeAuthScope. -/
def makeAuthScope (resource name : String) (actions : List String) : String :=
  resource ++ ":" ++ name ++ ":" ++ String.intercalate "," actions

structure DcdInfo where
  raw : String
  algorithm : String
  expectedDigest : String
deriving DecidableEq

/-- _parseDockerContentDigest. -/
def parseDockerContentDigest (dcd : String) : Except MErr DcdInfo :=
  if dcd = "" then
    .error (.badDigest "missing \"Docker-Content-Digest\" header")
  else
    let errPre := "could not parse Docker-Content-Digest header \"" ++ dcd ++ "\": "
    let parts := (splitIntoTwo dcd.data [':']).map fun l => (⟨l⟩ : String)
    if parts.length ≠ 2 then
      .error (.badDigest (errPre ++ jsonStringify (Json.str dcd)))
    else if parts.headD "" ≠ "sha256" then
      .error (.badDigest (errPre ++ "Unsupported hash algorithm " ++
        jsonStringify (Json.str (parts.headD ""))))
    else
      .ok ⟨dcd, parts.headD "", parts.getD 1 ""⟩

/-- Running the validationStream transform of _parseDockerContentDigest
over a whole chunked stream: every chunk is forwarded unchanged, and at
flush the accumulated sha256 is compared against the expected digest. -/
def validationStreamRun (info : DcdInfo) (chunks : List (List Nat)) :
    List (List Nat) × Option MErr :=
  let digest := sha256Hex chunks.flatten
  (chunks,
    if info.expectedDigest = digest then none
    else some (.badDigest ("Docker-Content-Digest (" ++ info.expectedDigest ++
      " vs " ++ digest ++ ")")))

/-- Whether a JS value is the number 1 (the strict equality test applied
to manifest.schemaVersion). -/
def isNumOne : Option Json → Bool
  | some (Json.num q) => decide (q = 1)
  | _ => false

/-- digestFromManifestStr. -/
def digestFromManifestStr (manifestStr : String) : Except MErr String :=
  match parseJson manifestStr with
  | none =>
      .error (.jsError ("could not parse manifest: " ++ "\n" ++ manifestStr))
  | some manifest =>
    match jsProp (some manifest) "schemaVersion" with
    | .error _ => .error .crash
    | .ok sv =>
      if isNumOne sv then
        .error (.jsError "schemaVersion 1 is not supported by /x/docker_registry_client.")
      else
        .ok ("sha256:" ++ sha256HexOfString manifestStr)

/-- The per-client configuration consumed by the embedded operations. -/
structure ClientCfg where
  insecure : Bool
  username : Option String
  password : Option String
  scopes : List String
  remoteName : String
  baseUrl : String

/-- ^(\w+):// applied to the realm in _getToken. -/
def realmSchemeMatch (s : String) : Option String :=
  let run := s.data.takeWhile isWordChar
  let rest := s.data.dropWhile isWordChar
  if run.isEmpty then none
  else if "://".data.isPrefixOf rest then some ⟨run⟩ else none

structure TokenOpts where
  realm : String
  service : Option String
  scopes : List String

/-- The response handling of _getToken: a 401 is converted to the
Registry-auth-failed HttpError, and a success without a string token
field to the no-token error. -/
def getTokenHandleResp (resp : Resp) : Except MErr String := do
  if resp.status = 401 then
    let body ← dockerJson resp
    match body with
    | none => .error .crash
    | some j =>
      match getRegistryErrorMessage j with
      | .error _ => .error .crash
      | .ok errMsg =>
          .error (dockerThrowable resp ("Registry auth failed: " ++ jsDisplay errMsg))
  else
    let body ← dockerJson resp
    match jsProp body "token" with
    | .error _ => .error .crash
    | .ok tok =>
      match tok with
      | some (Json.str t) => pure t
      | _ =>
        .error (dockerThrowable resp
          ("authorization " ++ "server did not include a token in the response"))

/-- _getToken.  The fetch of the token endpoint is supplied as a function
from the final URL and outgoing headers to a transport outcome. -/
def getToken (cfg : ClientCfg) (http : String → HeadersM → Except MErr Resp)
    (opts : TokenOpts) : Except MErr String := do
  let tokenUrl ←
    match realmSchemeMatch opts.realm with
    | none => pure ((if cfg.insecure then "http" else "https") ++ "://" ++ opts.realm)
    | some scheme =>
      if scheme = "http" || scheme = "https" then pure opts.realm
      else
        .error (.jsError ("unsupported scheme for " ++
          "WWW-Authenticate realm \"" ++ opts.realm ++ "\": \"" ++ scheme ++ "\""))
  let withService : List (String × String) :=
    match opts.service with
    | some sv => [("service", sv)]
    | none => []
  let withScopes := withService ++ opts.scopes.map fun sc => ("scope", sc)
  let headersQuery : HeadersM × List (String × String) :=
    match cfg.username with
    | some u =>
        (setAuthHeaderFromAuthInfo emptyHeaders
          (some (.basic u (cfg.password.getD ""))),
          withScopes ++ [("account", u)])
    | none => (emptyHeaders, withScopes)
  let qs := urlSearchParamsToString headersQuery.2
  let tokenUrl2 := if qs ≠ "" then tokenUrl ++ "?" ++ qs else tokenUrl
  let resp ← requestCheck [200, 401] tokenUrl2 (http tokenUrl2 headersQuery.1)
  getTokenHandleResp resp

/-- The environments performLogin touches: the fetch outcome of a fresh
GET /v2/ ping and the fetch of a token endpoint URL. -/
structure LoginEnv where
  pingRaw : Except MErr Resp
  tokenHttp : String → HeadersM → Except MErr Resp

/-- performLogin continuation once a challenge-bearing (or 401) response
is at hand. -/
def performLoginChallenge (cfg : ClientCfg) (env : LoginEnv)
    (scope : Option String) (res : Resp) : Except MErr AuthInfo := do
  let chalHeader := hGet res.headers "www-authenticate"
  if !truthyStr chalHeader then
    .error (dockerThrowable res
      ("missing WWW-Authenticate header from \"GET /v2/\" (see " ++
        "https://docs.docker.com/registry/spec/api/#api-version-check)"))
  else
    let authChallenge ← parseWWWAuthenticate (chalHeader.getD "")
    if jsToLower authChallenge.scheme = "basic" then
      pure (.basic (cfg.username.getD "") (cfg.password.getD ""))
    else if jsToLower authChallenge.scheme = "bearer" then do
      let token ← getToken cfg env.tokenHttp
        { realm := (challengeParm authChallenge "realm").getD ""
          service := challengeParm authChallenge "service"
          scopes := match scope with
            | some sc => if sc ≠ "" then [sc] else []
            | none => [] }
      pure (.bearer token)
    else
      .error (.jsError ("unsupported auth scheme: \"" ++ authChallenge.scheme ++ "\""))

/-- performLogin. -/
def performLogin (cfg : ClientCfg) (env : LoginEnv)
    (pingRes : Option Resp) (scope : Option String) : Except MErr AuthInfo :=
  let reuse : Option Resp :=
    match pingRes with
    | some r => if truthyStr (hGet r.headers "www-authenticate") then some r else none
    | none => none
  match reuse with
  | some r => performLoginChallenge cfg env scope r
  | none =>
    match requestCheck [200, 401] "/v2/" env.pingRaw with
    | .error e => .error e
    | .ok r =>
      if r.status = 200 then .ok .noAuth
      else performLoginChallenge cfg env scope r

/-- The mutable session state of one RegistryClientV2 instance. -/
structure Session where
  loggedIn : Bool
  loggedInScope : Option String
  authInfo : Option AuthInfo
  headers : HeadersM

/-- The session of a freshly constructed client before any login. -/
def initialSession (headers : HeadersM) : Session :=
  ⟨false, none, none, headers⟩

structure LoginResult where
  outcome : Except MErr Unit
  session : Session
  roundTrips : Nat

/-- The scope computed at the top of login: opts.scope when JS-truthy,
else the default repository scope built from the client scopes. -/
def effectiveScope (cfg : ClientCfg) (optScope : Option String) : String :=
  let defaultScope := makeAuthScope "repository" cfg.remoteName cfg.scopes
  match optScope with
  | some s => if s ≠ "" then s else defaultScope
  | none => defaultScope

/-- login.  The performLogin network activity is abstracted as the
doPerform argument (instantiated with performLogin cfg env); roundTrips
instruments how many times it was invoked (0 or 1). -/
def login (cfg : ClientCfg)
    (doPerform : Option Resp → String → Except MErr AuthInfo)
    (st : Session) (pingRes : Option Resp) (optScope : Option String) :
    LoginResult :=
  let scope := effectiveScope cfg optScope
  if st.loggedIn = true ∧ st.loggedInScope = some scope then
    ⟨.ok (), st, 0⟩
  else
    match doPerform pingRes scope with
    | .error e => ⟨.error e, st, 1⟩
    | .ok authInfo =>
      ⟨.ok (),
        ⟨true, some scope, some authInfo,
          setAuthHeaderFromAuthInfo st.headers (some authInfo)⟩,
        1⟩

/-- ping with its default expected statuses (the dockerBody call after the
request does not alter the response). -/
def pingModel (expect : List Nat) (raw : Except MErr Resp) : Except MErr Resp :=
  requestCheck expect "/v2/" raw

/-- JS split on the regex of one-or-more whitespace-or-comma characters,
as used on the docker-distribution-api-version header. -/
def isWsComma (c : Char) : Bool := isJsWs c || c = ','

def splitWsCommaGo : Nat → List Char → List Char → List (List Char)
  | 0, cur, _ => [cur.reverse]
  | _, cur, [] => [cur.reverse]
  | fuel + 1, cur, c :: tl =>
    if isWsComma c then
      cur.reverse :: splitWsCommaGo fuel [] (tl.dropWhile isWsComma)
    else
      splitWsCommaGo fuel (c :: cur) tl

def splitWsComma (s : String) : List String :=
  (splitWsCommaGo (s.length + 1) [] s.data).map fun l => ⟨l⟩

/-- supportsV2, over the fetch outcome of the GET /v2/ ping. -/
def supportsV2 (pingRaw : Except MErr Resp) : Except MErr Bool :=
  match pingModel [200, 401, 404] pingRaw with
  | .error e =>
    match e with
    | .httpError _ _ _ => .ok false
    | other => .error other
  | .ok res =>
    let header := hGet res.headers "docker-distribution-api-version"
    if truthyStr header && (splitWsComma (header.getD "")).contains "registry/2.0" then
      .ok true
    else
      .ok ([200, 401].contains res.status)

/-- getManifest after login: the manifest request URL path and the
response handling (401 conversion and the schemaVersion 1 rejection).
The fetch outcome of the manifests GET is the raw argument. -/
def getManifest (cfg : ClientCfg) (ref : String) (raw : Except MErr Resp) :
    Except MErr (Resp × Option Json) := do
  let path := "/v2/" ++ encodeURI cfg.remoteName ++ "/manifests/" ++ encodeURI ref
  let resp ← requestCheck [200, 401] path raw
  if resp.status = 401 then
    let body ← dockerJson resp
    match body with
    | none => .error .crash
    | some j =>
      match getRegistryErrorMessage j with
      | .error _ => .error .crash
      | .ok errMsg =>
        .error (dockerThrowable resp
          ("Manifest " ++ jsonStringify (Json.str ref) ++ " Not Found: " ++
            jsDisplay errMsg))
  else
    let manifest ← dockerJson resp
    match jsProp manifest "schemaVersion" with
    | .error _ => .error .crash
    | .ok sv =>
      if isNumOne sv then
        .error (.jsError "schemaVersion 1 is not supported by /x/docker_registry_client.")
      else
        pure (resp, manifest)

/-- One outgoing request of the redirect follower: its URL and headers
(none meaning the caller passed no headers object). -/
structure ReqRec where
  path : String
  headers : Option HeadersM
deriving DecidableEq

/-- _makeHttpRequest.  The server argument gives the fetch outcome of the
n-th issued request; resolveUrl models new URL(input, base).toString();
the returned trace lists every request issued, in order (observational
instrumentation of the loop body). -/
def makeHttpRequestGo (server : Nat → Except MErr Resp)
    (resolveUrl : String → String → String) (baseUrl : String)
    (followRedirects : Bool) (maxRedirects : Nat) :
    Nat → Nat → ReqRec → List Resp →
      (Except MErr (List Resp)) × List ReqRec
  | 0, _, _, _ =>
    (.error (.tooManyRedirects
      ("maximum number of redirects (" ++ toString maxRedirects ++ ") hit")), [])
  | remaining + 1, hop, req, ress =>
    match requestCheck [200, 302, 307] req.path (server hop) with
    | .error e => (.error e, [req])
    | .ok resp =>
      let ress1 := ress ++ [resp]
      if !followRedirects then (.ok ress1, [req])
      else if !(resp.status = 302 || resp.status = 307) then (.ok ress1, [req])
      else
        let location := hGet resp.headers "location"
        if !truthyStr location then (.ok ress1, [req])
        else
          let rest := makeHttpRequestGo server resolveUrl baseUrl followRedirects
            maxRedirects remaining (hop + 1)
            ⟨resolveUrl (location.getD "") (resolveUrl req.path baseUrl),
              some emptyHeaders⟩
            ress1
          (rest.1, req :: rest.2)

structure MakeHttpOpts where
  path : String
  headers : Option HeadersM
  followRedirects : Option Bool
  maxRedirects : Option Nat

def makeHttpRequest (server : Nat → Except MErr Resp)
    (resolveUrl : String → String → String) (baseUrl : String)
    (opts : MakeHttpOpts) : (Except MErr (List Resp)) × List ReqRec :=
  makeHttpRequestGo server resolveUrl baseUrl
    (opts.followRedirects.getD true) (opts.maxRedirects.getD 3)
    (opts.maxRedirects.getD 3) 0 ⟨opts.path, opts.headers⟩ []

/-- The ReadableStream handed back by createBlobReadStream: the chunks the
consumer will receive and the error, if any, the stream raises at
end-of-stream. -/
structure BlobStream where
  chunks : List (List Nat)
  eosError : Option MErr

/-- dockerStream of the terminal response (responses are modelled without
a content-md5 header, so no transform is attached by docker-json-client). -/
def dockerStream (resp : Resp) : BlobStream := ⟨resp.chunks, none⟩

/-- createBlobReadStream, given the response chain ress produced by
_headOrGetBlob (login followed by _makeHttpRequest).  Note that the
source leaves the validationStream pipeThrough commented out (TODO until
node 18), so the terminal stream is returned unmodified after the header
pre-check. -/
def createBlobReadStream (digest : String) (ress : List Resp) :
    Except MErr (List Resp × BlobStream) := do
  match ress with
  | [] => .error .crash
  | first :: rest =>
    let stream := dockerStream ((first :: rest).getLast (by simp))
    let dcdHeader := hGet first.headers "docker-content-digest"
    if truthyStr dcdHeader then do
      let dcdInfo ← parseDockerContentDigest (dcdHeader.getD "")
      if dcdInfo.raw ≠ digest then
        .error (.badDigest ("Docker-Content-Digest header, " ++ dcdInfo.raw ++
          ", does not match " ++ "given digest, " ++ digest))
      else
        pure (first :: rest, stream)
    else
      pure (first :: rest, stream)

/-! ## Observer and spec-side definitions used by the theorems -/

/-- Whether an error value carries a response (the err.resp truthiness
test in supportsV2). -/
def hasRespErr : MErr → Bool
  | .httpError _ _ _ => true
  | _ => false

/-- The spec reading of v2 support for a ping response: the
docker-distribution-api-version header lists registry/2.0, or the status
is 200 or 401. -/
def supportsV2Spec (r : Resp) : Bool :=
  (match hGet r.headers "docker-distribution-api-version" with
    | some h => (splitWsComma h).contains "registry/2.0"
    | none => false) ||
  decide (r.status = 200) || decide (r.status = 401)

/-- The constructor defaulting of the scopes option (opts.scopes with
default pull). -/
def clientScopes (optScopes : Option (List String)) : List String :=
  optScopes.getD ["pull"]

/-- The redirect-chain structure of an issued request trace: each request
after the first is addressed at the location header of the previous
response resolved against the previous request URL, and carries a fresh
empty header set. -/
def chainShape (resolveUrl : String → String → String) (baseUrl : String)
    (server : Nat → Except MErr Resp) : Nat → List ReqRec → Prop
  | _, [] => True
  | _, [_] => True
  | hop, a :: b :: rest =>
    (∃ r', requestCheck [200, 302, 307] a.path (server hop) = .ok r' ∧
      ∃ loc, hGet r'.headers "location" = some loc ∧ loc ≠ "" ∧
        b = ⟨resolveUrl loc (resolveUrl a.path baseUrl), some emptyHeaders⟩) ∧
    chainShape resolveUrl baseUrl server (hop + 1) (b :: rest)

set_option maxRecDepth 40000

/-- FIPS 180 test vectors, anchoring the embedded hash function. -/
theorem sha256_test_vectors :
    sha256HexOfString "abc"
      = "ba7816bf8f01cfea414140de5dae2223b00361a396177a9cb410ff61f20015ad" ∧
    sha256HexOfString ""
      = "e3b0c44298fc1c149afbf4c8996fb92427ae41e4649b934ca495991b7852b855" := by
  constructor <;> decide

/-- C2, counterexample: supportsV2 does not return false on a transport
failure (it re-throws it), and it does return false when the ping failure
carries a response (here an unexpected HTTP 500), which the claim says
should be re-thrown. -/
theorem supportsV2_claim_false :
    (supportsV2 (.error (.transport "network failure"))
        = .error (.transport "network failure")) ∧
    (∀ b, supportsV2 (.error (.transport "network failure")) ≠ .ok b) ∧
    (supportsV2 (.error (.httpError ⟨500, [], "", []⟩ [] "Unexpected HTTP 500 from /v2/"))
        = .ok false) := by
  refine ⟨rfl, ?_, rfl⟩
  intro b h
  exact Except.noConfusion h

/-- C2, amended: supportsV2 returns false when the ping fails with an
error that carries a response (including an unexpected status, which ping
converts to such an error), re-throws a ping failure that carries no
response (transport failure), and on a ping response with an expected
status returns true exactly when the docker-distribution-api-version
header lists registry/2.0 or the status is 200 or 401. -/
theorem supportsV2_corrected :
    (∀ (raw : Except MErr Resp) (r : Resp), raw = .ok r →
      ([200, 401, 404].contains r.status) = true →
      supportsV2 raw = .ok (supportsV2Spec r)) ∧
    (∀ (raw : Except MErr Resp) (r : Resp), raw = .ok r →
      ([200, 401, 404].contains r.status) = false →
      supportsV2 raw = .ok false) ∧
    (∀ (raw : Except MErr Resp) (e : MErr), raw = .error e →
      hasRespErr e = false → supportsV2 raw = .error e) ∧
    (∀ (raw : Except MErr Resp) (r : Resp) (errs : RegErrs) (m : String),
      raw = .error (.httpError r errs m) → supportsV2 raw = .ok false) := by
  refine ⟨?_, ?_, ?_, ?_⟩
  · rintro raw r rfl hst
    simp only [supportsV2, pingModel, requestCheck, hst, if_true]
    cases hh : hGet r.headers "docker-distribution-api-version" with
    | none =>
      simp [supportsV2Spec, hh, truthyStr, List.contains]
    | some h =>
      by_cases hmem : "registry/2.0" ∈ splitWsComma h
      · by_cases he : h = ""
        · subst he
          exact absurd hmem (by decide)
        · simp [supportsV2Spec, hh, truthyStr, he, hmem]
      · by_cases he : h = ""
        · subst he
          simp [supportsV2Spec, hh, truthyStr, hmem, List.contains]
        · simp [supportsV2Spec, hh, truthyStr, he, hmem, List.contains]
  · rintro raw r rfl hst
    simp only [supportsV2, pingModel, requestCheck, hst, if_false, Bool.false_eq_true,
      dockerThrowable]
  · rintro raw e rfl hre
    cases e <;> simp_all [supportsV2, pingModel, requestCheck, hasRespErr]
  · rintro raw r errs m rfl
    rfl

/-- C2 witness: a 401 ping response advertising registry/2.0 is reported
as v2 support. -/
theorem supportsV2_corrected_witness :
    supportsV2 (.ok ⟨401, [("docker-distribution-api-version", "registry/2.0")], "", []⟩)
      = .ok true := by
  have h := supportsV2_corrected.1
    (.ok ⟨401, [("docker-distribution-api-version", "registry/2.0")], "", []⟩)
    ⟨401, [("docker-distribution-api-version", "registry/2.0")], "", []⟩
    rfl (by decide)
  exact h.trans (congrArg Except.ok (by decide))

/-- Unfolding of login in the memoized case. -/
theorem login_memoized_eq (cfg : ClientCfg)
    (f : Option Resp → String → Except MErr AuthInfo) (st : Session)
    (p : Option Resp) (o : Option String) (hL : st.loggedIn = true)
    (hS : st.loggedInScope = some (effectiveScope cfg o)) :
    login cfg f st p o = ⟨.ok (), st, 0⟩ := by
  simp only [login]
  rw [if_pos ⟨hL, hS⟩]

/-- Unfolding of login in the non-memoized case. -/
theorem login_fresh_eq (cfg : ClientCfg)
    (f : Option Resp → String → Except MErr AuthInfo) (st : Session)
    (p : Option Resp) (o : Option String)
    (h : ¬(st.loggedIn = true ∧ st.loggedInScope = some (effectiveScope cfg o))) :
    login cfg f st p o =
      match f p (effectiveScope cfg o) with
      | .error e => ⟨.error e, st, 1⟩
      | .ok ai =>
        ⟨.ok (), ⟨true, some (effectiveScope cfg o), some ai,
          setAuthHeaderFromAuthInfo st.headers (some ai)⟩, 1⟩ := by
  simp only [login]
  rw [if_neg h]

/-- C5: login is memoized on the effective scope string (defaulting to
repository:remoteName:joined-scopes, with scopes defaulting to pull): a
second login with the same effective scope consults the authenticator not
at all and leaves the session unchanged with zero round trips, while a
non-memoized login whose authentication succeeds performs one round trip
and replaces the stored scope, AuthInfo and authorization header. -/
theorem login_scope_memoization :
    (∀ (cfg : ClientCfg) (doPerform doPerform2 : Option Resp → String → Except MErr AuthInfo)
        (st : Session) (pingRes : Option Resp) (optScope : Option String),
      st.loggedIn = true → st.loggedInScope = some (effectiveScope cfg optScope) →
      login cfg doPerform st pingRes optScope = ⟨.ok (), st, 0⟩ ∧
      login cfg doPerform st pingRes optScope = login cfg doPerform2 st pingRes optScope) ∧
    (∀ (cfg : ClientCfg) (doPerform : Option Resp → String → Except MErr AuthInfo)
        (st : Session) (pingRes : Option Resp) (optScope : Option String)
        (ai : AuthInfo),
      ¬(st.loggedIn = true ∧ st.loggedInScope = some (effectiveScope cfg optScope)) →
      doPerform pingRes (effectiveScope cfg optScope) = .ok ai →
      login cfg doPerform st pingRes optScope =
        ⟨.ok (), ⟨true, some (effectiveScope cfg optScope), some ai,
          setAuthHeaderFromAuthInfo st.headers (some ai)⟩, 1⟩) ∧
    (∀ rn, makeAuthScope "repository" rn (clientScopes none) = "repository:" ++ rn ++ ":pull") := by
  refine ⟨?_, ?_, ?_⟩
  · intro cfg doPerform doPerform2 st pingRes optScope hL hS
    refine ⟨login_memoized_eq cfg doPerform st pingRes optScope hL hS, ?_⟩
    rw [login_memoized_eq cfg doPerform st pingRes optScope hL hS,
      login_memoized_eq cfg doPerform2 st pingRes optScope hL hS]
  · intro cfg doPerform st pingRes optScope ai hmemo hok
    rw [login_fresh_eq cfg doPerform st pingRes optScope hmemo, hok]
  · intro rn
    show "repository" ++ ":" ++ rn ++ ":" ++ String.intercalate "," ["pull"] = _
    rw [String.append_assoc]
    rfl

/-- C5 witness: a client already logged in for the default pull scope of
repository r ignores the authenticator on a repeat login, and a push-scoped
login replaces the session. -/
theorem login_scope_memoization_witness :
    login ⟨false, none, none, ["pull"], "r", "https://reg.example"⟩
        (fun _ _ => .error (.transport "no network"))
        ⟨true, some "repository:r:pull", some .noAuth, []⟩ none none
      = ⟨.ok (), ⟨true, some "repository:r:pull", some .noAuth, []⟩, 0⟩ ∧
    login ⟨false, none, none, ["pull"], "r", "https://reg.example"⟩
        (fun _ _ => .ok (.bearer "tok2"))
        ⟨true, some "repository:r:pull", some .noAuth, []⟩ none
        (some "repository:r:pull,push")
      = ⟨.ok (), ⟨true, some "repository:r:pull,push", some (.bearer "tok2"),
          [("authorization", "Bearer tok2")]⟩, 1⟩ := by
  constructor
  · exact (login_scope_memoization.1
      ⟨false, none, none, ["pull"], "r", "https://reg.example"⟩
      (fun _ _ => .error (.transport "no network"))
      (fun _ _ => .error (.transport "no network"))
      ⟨true, some "repository:r:pull", some .noAuth, []⟩ none none
      rfl (by decide)).1
  · have h := login_scope_memoization.2.1
      ⟨false, none, none, ["pull"], "r", "https://reg.example"⟩
      (fun _ _ => .ok (.bearer "tok2"))
      ⟨true, some "repository:r:pull", some .noAuth, []⟩ none
      (some "repository:r:pull,push") (.bearer "tok2")
      (by decide) rfl
    exact h

/-- C10: login is atomic with respect to the session: when the underlying
performLogin fails (for any of its failure modes: ping failure, missing or
unparsable WWW-Authenticate challenge, unsupported scheme, token-fetch
failure) the session fields are exactly as before the call, and the
session is replaced only when performLogin returned an AuthInfo. -/
theorem login_atomic_on_failure :
    ∀ (cfg : ClientCfg) (env : LoginEnv) (st : Session) (pingRes : Option Resp)
      (optScope : Option String),
      (∀ e, performLogin cfg env pingRes (some (effectiveScope cfg optScope)) = .error e →
        (login cfg (fun pr sc => performLogin cfg env pr (some sc))
            st pingRes optScope).session = st ∧
        ((login cfg (fun pr sc => performLogin cfg env pr (some sc))
            st pingRes optScope).outcome = .ok () ∨
          (login cfg (fun pr sc => performLogin cfg env pr (some sc))
            st pingRes optScope).outcome = .error e)) ∧
      ((login cfg (fun pr sc => performLogin cfg env pr (some sc))
          st pingRes optScope).session ≠ st →
        ∃ ai, performLogin cfg env pingRes (some (effectiveScope cfg optScope)) = .ok ai ∧
          (login cfg (fun pr sc => performLogin cfg env pr (some sc))
              st pingRes optScope).session =
            ⟨true, some (effectiveScope cfg optScope), some ai,
              setAuthHeaderFromAuthInfo st.headers (some ai)⟩) := by
  intro cfg env st pingRes optScope
  constructor
  · intro e herr
    by_cases hmemo : st.loggedIn = true ∧ st.loggedInScope = some (effectiveScope cfg optScope)
    · rw [login_memoized_eq cfg _ st pingRes optScope hmemo.1 hmemo.2]
      exact ⟨rfl, Or.inl rfl⟩
    · rw [login_fresh_eq cfg _ st pingRes optScope hmemo, herr]
      exact ⟨rfl, Or.inr rfl⟩
  · intro hne
    by_cases hmemo : st.loggedIn = true ∧ st.loggedInScope = some (effectiveScope cfg optScope)
    · rw [login_memoized_eq cfg _ st pingRes optScope hmemo.1 hmemo.2] at hne
      exact absurd rfl hne
    · rw [login_fresh_eq cfg _ st pingRes optScope hmemo] at hne ⊢
      cases hok : performLogin cfg env pingRes (some (effectiveScope cfg optScope)) with
      | error e => rw [hok] at hne; exact absurd rfl hne
      | ok ai => exact ⟨ai, rfl, rfl⟩

/-- C10 witness: a ping answering 401 with a Digest challenge makes
performLogin fail with the unsupported-scheme error, and login leaves the
fresh session untouched. -/
theorem login_atomic_on_failure_witness :
    (login ⟨false, none, none, ["pull"], "r", "https://reg.example"⟩
        (fun pr sc =>
          performLogin ⟨false, none, none, ["pull"], "r", "https://reg.example"⟩
            ⟨.ok ⟨401, [("www-authenticate", "Digest realm=x")], "", []⟩,
              fun _ _ => .error (.transport "t")⟩ pr (some sc))
        (initialSession []) none none).session = initialSession [] := by
  have h := (login_atomic_on_failure
    ⟨false, none, none, ["pull"], "r", "https://reg.example"⟩
    ⟨.ok ⟨401, [("www-authenticate", "Digest realm=x")], "", []⟩,
      fun _ _ => .error (.transport "t")⟩
    (initialSession []) none none).1
    (.jsError "unsupported auth scheme: \"Digest\"") rfl
  exact h.1

/-- A dockerJson result holding a value forces the raw body to parse to
that value. -/
theorem dockerJson_ok_some {r : Resp} {j : Json}
    (h : dockerJson r = .ok (some j)) : parseJson r.body = some j := by
  unfold dockerJson at h
  by_cases h0 : (jsTrim r.body.data).length = 0
  · rw [if_pos h0] at h
    injection h with h1
    cases h1
  · rw [if_neg h0] at h
    cases hp : parseJson r.body with
    | none => rw [hp] at h; cases h
    | some j2 =>
      rw [hp] at h
      injection h

/-- Reduction of monadic bind on a successful Except value. -/
theorem bindOk {ε α β : Type} (a : α) (f : α → Except ε β) :
    ((Except.ok a : Except ε α) >>= f) = f a := rfl

/-- Monadic bind on Except reduces over pure. -/
theorem pureBind {ε α β : Type} (a : α) (f : α → Except ε β) :
    ((pure a : Except ε α) >>= f) = f a := rfl

/-- A defined property forces the parsed value to be an object. -/
theorem jsGetProp_some_obj {j : Json} {k : String} {v : Json}
    (h : jsGetProp j k = some v) : ∃ ms, j = Json.obj ms := by
  cases j with
  | obj ms => exact ⟨ms, rfl⟩
  | null => cases h
  | bool b => cases h
  | num q => cases h
  | str s => cases h
  | arr l => cases h

/-- C7: a manifest whose parsed body carries schemaVersion 1 is rejected
with the fatal unsupported error both by the 200-path of getManifest and
by digestFromManifestStr, whatever the other fields hold. -/
theorem schemaVersion1_rejected :
    ∀ (cfg : ClientCfg) (ref : String) (r : Resp) (j : Json),
      r.status = 200 →
      dockerJson r = .ok (some j) →
      jsGetProp j "schemaVersion" = some (Json.num 1) →
      getManifest cfg ref (.ok r) =
        .error (.jsError "schemaVersion 1 is not supported by /x/docker_registry_client.") ∧
      digestFromManifestStr r.body =
        .error (.jsError "schemaVersion 1 is not supported by /x/docker_registry_client.") := by
  intro cfg ref r j hst hdj hsv
  obtain ⟨ms, hobj⟩ := jsGetProp_some_obj hsv
  have hparse : parseJson r.body = some j := dockerJson_ok_some hdj
  have hj : jsProp (some j) "schemaVersion" = .ok (jsGetProp j "schemaVersion") := by
    rw [hobj]; rfl
  have hone : isNumOne (jsGetProp j "schemaVersion") = true := by
    rw [hsv]; rfl
  constructor
  · have hreq : requestCheck [200, 401] ("/v2/" ++ encodeURI cfg.remoteName ++
        "/manifests/" ++ encodeURI ref) (.ok r) = .ok r := by
      simp [requestCheck, hst]
    simp only [getManifest, hreq, bindOk]
    rw [hst, if_neg (show ¬(200 = 401) from by decide), hdj]
    simp only [bindOk]
    rw [hj]
    dsimp only
    rw [hone]
    simp
  · unfold digestFromManifestStr
    rw [hparse]
    dsimp only
    rw [hj]
    dsimp only
    rw [hone]
    simp

/-- C7 witness: the manifest text with schemaVersion 1 is rejected on both
paths. -/
theorem schemaVersion1_rejected_witness :
    getManifest ⟨false, none, none, ["pull"], "r", "https://reg.example"⟩ "t"
        (.ok ⟨200, [], "\x7b\"schemaVersion\":1\x7d", []⟩) =
      .error (.jsError "schemaVersion 1 is not supported by /x/docker_registry_client.") ∧
    digestFromManifestStr "\x7b\"schemaVersion\":1\x7d" =
      .error (.jsError "schemaVersion 1 is not supported by /x/docker_registry_client.") := by
  exact schemaVersion1_rejected ⟨false, none, none, ["pull"], "r", "https://reg.example"⟩
    "t" ⟨200, [], "\x7b\"schemaVersion\":1\x7d", []⟩
    (Json.obj [("schemaVersion", Json.num 1)]) rfl rfl rfl

/-- C6, counterexample: the input null parses as JSON and has no
schemaVersion equal to 1, yet digestFromManifestStr does not return its
digest: the property access manifest.schemaVersion throws a TypeError on
the null value. -/
theorem digestFromManifestStr_null_no_digest :
    digestFromManifestStr "null" = .error .crash ∧
    parseJson "null" = some Json.null ∧
    isNumOne (jsGetProp Json.null "schemaVersion") = false ∧
    digestFromManifestStr "null" ≠ .ok ("sha256:" ++ sha256HexOfString "null") := by
  refine ⟨rfl, rfl, rfl, ?_⟩
  intro h
  exact Except.noConfusion h

/-- C6, amended: for every input string that parses as JSON to a non-null
value whose schemaVersion is not the number 1, digestFromManifestStr
returns the string sha256: followed by the hex SHA-256 of the raw input
bytes; the result is a pure function of the input string, not of a
re-serialization of the parsed JSON. -/
theorem digestFromManifestStr_raw_hash :
    ∀ (s : String) (j : Json), parseJson s = some j → j ≠ Json.null →
      isNumOne (jsGetProp j "schemaVersion") = false →
      digestFromManifestStr s = .ok ("sha256:" ++ sha256HexOfString s) := by
  intro s j hp hnull hsv
  have hj : jsProp (some j) "schemaVersion" = .ok (jsGetProp j "schemaVersion") := by
    cases j with
    | null => exact absurd rfl hnull
    | bool b => rfl
    | num q => rfl
    | str t => rfl
    | arr l => rfl
    | obj ms => rfl
  unfold digestFromManifestStr
  rw [hp]
  dsimp only
  rw [hj]
  dsimp only
  rw [hsv]
  simp

/-- C6 witness: a schemaVersion 2 OCI manifest body hashes to the digest
computed independently over the same bytes (cross-checked against
sha256sum). -/
theorem digestFromManifestStr_raw_hash_witness :
    digestFromManifestStr
        "\x7b\"schemaVersion\":2,\"mediaType\":\"application/vnd.oci.image.manifest.v1+json\"\x7d"
      = .ok ("sha256:" ++ sha256HexOfString
        "\x7b\"schemaVersion\":2,\"mediaType\":\"application/vnd.oci.image.manifest.v1+json\"\x7d") ∧
    "sha256:" ++ sha256HexOfString
        "\x7b\"schemaVersion\":2,\"mediaType\":\"application/vnd.oci.image.manifest.v1+json\"\x7d"
      = "sha256:b22c7289dd3b4785a3795c90e15d16bd66bd29b444b8974fe29ed0443ce50405" := by
  constructor
  · exact digestFromManifestStr_raw_hash
      "\x7b\"schemaVersion\":2,\"mediaType\":\"application/vnd.oci.image.manifest.v1+json\"\x7d"
      (Json.obj [("schemaVersion", Json.num 2),
        ("mediaType", Json.str "application/vnd.oci.image.manifest.v1+json")])
      rfl (by intro h; cases h) rfl
  · decide

/-- requestCheck passes a response through when its status is expected. -/
theorem requestCheck_ok {expect : List Nat} {path : String} {r : Resp}
    (h : expect.contains r.status = true) :
    requestCheck expect path (.ok r) = .ok r := by
  have hm : r.status ∈ expect := by simpa using h
  simp [requestCheck, List.contains, List.any_eq_true]
  exact hm

/-- Every response being a 307 with a location header drives the redirect
loop to the fuel bound: the outcome is TooManyRedirectsError and exactly
one request per allowed hop was issued. -/
theorem go_redirect_all (server : Nat → Except MErr Resp)
    (resolve : String → String → String) (base : String) (maxR : Nat)
    (rs : Nat → Resp) :
    ∀ m hop req ress,
      (∀ i, i < m → server (hop + i) = .ok (rs (hop + i)) ∧
        (rs (hop + i)).status = 307 ∧
        truthyStr (hGet (rs (hop + i)).headers "location") = true) →
      (makeHttpRequestGo server resolve base true maxR m hop req ress).1 =
        .error (.tooManyRedirects
          ("maximum number of redirects (" ++ toString maxR ++ ") hit")) ∧
      (makeHttpRequestGo server resolve base true maxR m hop req ress).2.length = m := by
  intro m
  induction m with
  | zero => intro hop req ress _; exact ⟨rfl, rfl⟩
  | succ m ih =>
    intro hop req ress h
    have h0 := h 0 (Nat.succ_pos m)
    rw [Nat.add_zero] at h0
    obtain ⟨hs, h307, hloc⟩ := h0
    have hreq : requestCheck [200, 302, 307] req.path (server hop) = .ok (rs hop) := by
      rw [hs]
      simp [requestCheck, h307]
    have hshift : ∀ i, i < m → server (hop + 1 + i) = .ok (rs (hop + 1 + i)) ∧
        (rs (hop + 1 + i)).status = 307 ∧
        truthyStr (hGet (rs (hop + 1 + i)).headers "location") = true := by
      intro i hi
      have := h (i + 1) (by omega)
      rwa [show hop + (i + 1) = hop + 1 + i by omega] at this
    simp only [makeHttpRequestGo, hreq]
    rw [h307]
    cases hlo : hGet (rs hop).headers "location" with
    | none => rw [hlo] at hloc; cases hloc
    | some loc =>
      rw [hlo] at hloc
      have ihr := ih (hop + 1)
        ⟨resolve loc (resolve req.path base), some emptyHeaders⟩
        (ress ++ [rs hop]) hshift
      simp only [hloc]
      simp only [Bool.not_true, Bool.false_eq_true, if_false]
      refine ⟨ihr.1, ?_⟩
      simp [ihr.2]

/-- Prepending the first response to a shifted response range. -/
theorem consMapRange (rs : Nat → Resp) (hop k : Nat) :
    rs hop :: (List.range (k + 1)).map (fun i => rs (hop + 1 + i)) =
      (List.range (k + 2)).map (fun i => rs (hop + i)) := by
  conv_rhs => rw [show k + 2 = (k + 1) + 1 from rfl, List.range_succ_eq_map,
    List.map_cons, List.map_map]
  congr 1
  apply List.map_congr_left
  intro x _
  simp only [Function.comp_apply]
  congr 1
  omega

/-- If the first k responses are 307-with-location and the k-th response
has an expected status that is not a followable redirect (wrong status or
no location), the loop stops and returns the accumulated chain of k+1
responses. -/
theorem go_redirect_stop (server : Nat → Except MErr Resp)
    (resolve : String → String → String) (base : String) (maxR : Nat)
    (rs : Nat → Resp) :
    ∀ k m hop req ress, k < m →
      (∀ i, i < k → server (hop + i) = .ok (rs (hop + i)) ∧
        (rs (hop + i)).status = 307 ∧
        truthyStr (hGet (rs (hop + i)).headers "location") = true) →
      server (hop + k) = .ok (rs (hop + k)) →
      ([200, 302, 307].contains (rs (hop + k)).status) = true →
      ((¬((rs (hop + k)).status = 302 ∨ (rs (hop + k)).status = 307)) ∨
        truthyStr (hGet (rs (hop + k)).headers "location") = false) →
      (makeHttpRequestGo server resolve base true maxR m hop req ress).1 =
        .ok (ress ++ (List.range (k + 1)).map (fun i => rs (hop + i))) ∧
      (makeHttpRequestGo server resolve base true maxR m hop req ress).2.length = k + 1 := by
  intro k
  induction k with
  | zero =>
    intro m hop req ress hkm hpre hs hexp hstop
    cases m with
    | zero => omega
    | succ m =>
      rw [Nat.add_zero] at hs hexp hstop
      have hreq : requestCheck [200, 302, 307] req.path (server hop) = .ok (rs hop) := by
        rw [hs]
        exact requestCheck_ok hexp
      simp only [makeHttpRequestGo, hreq]
      by_cases hred : ((rs hop).status = 302 ∨ (rs hop).status = 307)
      · have hloc : truthyStr (hGet (rs hop).headers "location") = false := by
          rcases hstop with hst | hl
          · exact absurd hred hst
          · exact hl
        rcases hred with h3 | h3 <;>
          simp [h3, hloc, List.range_succ]
      · have h302 : (rs hop).status ≠ 302 := fun hh => hred (Or.inl hh)
        have h307 : (rs hop).status ≠ 307 := fun hh => hred (Or.inr hh)
        simp [h302, h307, List.range_succ]
  | succ k ihk =>
    intro m hop req ress hkm hpre hs hexp hstop
    cases m with
    | zero => omega
    | succ m =>
      have h0 := hpre 0 (Nat.succ_pos k)
      rw [Nat.add_zero] at h0
      obtain ⟨hs0, h3070, hloc0⟩ := h0
      have hreq : requestCheck [200, 302, 307] req.path (server hop) = .ok (rs hop) := by
        rw [hs0]
        simp [requestCheck, h3070]
      simp only [makeHttpRequestGo, hreq]
      rw [h3070]
      cases hlo : hGet (rs hop).headers "location" with
      | none => rw [hlo] at hloc0; cases hloc0
      | some loc =>
        rw [hlo] at hloc0
        have hshift : hop + (k + 1) = hop + 1 + k := by omega
        have hpre1 : ∀ i, i < k → server (hop + 1 + i) = .ok (rs (hop + 1 + i)) ∧
            (rs (hop + 1 + i)).status = 307 ∧
            truthyStr (hGet (rs (hop + 1 + i)).headers "location") = true := by
          intro i hi
          have := hpre (i + 1) (by omega)
          rwa [show hop + (i + 1) = hop + 1 + i by omega] at this
        rw [hshift] at hs hexp hstop
        have ihr := ihk m (hop + 1)
          ⟨resolve loc (resolve req.path base), some emptyHeaders⟩
          (ress ++ [rs hop]) (by omega) hpre1 hs hexp hstop
        rw [hloc0]
        constructor
        · change (makeHttpRequestGo server resolve base true maxR m (hop + 1)
              ⟨resolve loc (resolve req.path base), some emptyHeaders⟩
              (ress ++ [rs hop])).1 = _
          rw [ihr.1]
          congr 1
          rw [List.append_assoc, List.singleton_append, consMapRange]
        · change (req :: (makeHttpRequestGo server resolve base true maxR m (hop + 1)
              ⟨resolve loc (resolve req.path base), some emptyHeaders⟩
              (ress ++ [rs hop])).2).length = k + 1 + 1
          rw [List.length_cons, ihr.2]

/-- C3: with redirect following enabled, a server that always answers 307
with a location header makes _makeHttpRequest throw TooManyRedirectsError
after exactly maxRedirects requests (default 3), not before and not
after; and a response whose status is not 302/307, or that has no
location header, ends the loop with the chain of responses so far
returned as-is. -/
theorem makeHttpRequest_redirect_bound :
    ∀ (server : Nat → Except MErr Resp) (resolve : String → String → String)
      (base : String) (opts : MakeHttpOpts) (maxR : Nat) (rs : Nat → Resp),
      opts.followRedirects.getD true = true →
      opts.maxRedirects.getD 3 = maxR →
      ((∀ i, i < maxR → server i = .ok (rs i) ∧ (rs i).status = 307 ∧
          truthyStr (hGet (rs i).headers "location") = true) →
        (makeHttpRequest server resolve base opts).1 =
          .error (.tooManyRedirects
            ("maximum number of redirects (" ++ toString maxR ++ ") hit")) ∧
        (makeHttpRequest server resolve base opts).2.length = maxR) ∧
      (∀ k, k < maxR →
        (∀ i, i < k → server i = .ok (rs i) ∧ (rs i).status = 307 ∧
          truthyStr (hGet (rs i).headers "location") = true) →
        server k = .ok (rs k) →
        ([200, 302, 307].contains (rs k).status) = true →
        ((¬((rs k).status = 302 ∨ (rs k).status = 307)) ∨
          truthyStr (hGet (rs k).headers "location") = false) →
        (makeHttpRequest server resolve base opts).1 =
          .ok ((List.range (k + 1)).map rs) ∧
        (makeHttpRequest server resolve base opts).2.length = k + 1) := by
  intro server resolve base opts maxR rs hf hm
  unfold makeHttpRequest
  rw [hf, hm]
  constructor
  · intro hall
    have hall0 : ∀ i, i < maxR → server (0 + i) = .ok (rs (0 + i)) ∧
        (rs (0 + i)).status = 307 ∧
        truthyStr (hGet (rs (0 + i)).headers "location") = true := by
      intro i hi
      rw [Nat.zero_add]
      exact hall i hi
    exact go_redirect_all server resolve base maxR rs maxR 0
      ⟨opts.path, opts.headers⟩ [] hall0
  · intro k hk hpre hs hexp hstop
    have hpre0 : ∀ i, i < k → server (0 + i) = .ok (rs (0 + i)) ∧
        (rs (0 + i)).status = 307 ∧
        truthyStr (hGet (rs (0 + i)).headers "location") = true := by
      intro i hi
      rw [Nat.zero_add]
      exact hpre i hi
    have h := go_redirect_stop server resolve base maxR rs k maxR 0
      ⟨opts.path, opts.headers⟩ [] hk hpre0 (by rwa [Nat.zero_add])
      (by rwa [Nat.zero_add]) (by rwa [Nat.zero_add])
    refine ⟨h.1.trans ?_, h.2⟩
    congr 1
    rw [List.nil_append]
    apply List.map_congr_left
    intro x _
    rw [Nat.zero_add]

/-- C3 witness: an always-307 server exhausts the default bound of 3 with
exactly 3 requests issued, and a first-response 200 returns a one-element
chain. -/
theorem makeHttpRequest_redirect_bound_witness :
    ((makeHttpRequest (fun _ => .ok ⟨307, [("location", "https://cdn.example/x")], "", []⟩)
        (fun l _ => l) "https://reg.example" ⟨"/v2/r/blobs/sha256:d", none, none, none⟩).1 =
      .error (.tooManyRedirects "maximum number of redirects (3) hit") ∧
    (makeHttpRequest (fun _ => .ok ⟨307, [("location", "https://cdn.example/x")], "", []⟩)
        (fun l _ => l) "https://reg.example" ⟨"/v2/r/blobs/sha256:d", none, none, none⟩).2.length = 3) ∧
    ((makeHttpRequest (fun _ => .ok ⟨200, [], "", [[1, 2]]⟩)
        (fun l _ => l) "https://reg.example" ⟨"/v2/r/blobs/sha256:d", none, none, none⟩).1 =
      .ok [⟨200, [], "", [[1, 2]]⟩] ∧
    (makeHttpRequest (fun _ => .ok ⟨200, [], "", [[1, 2]]⟩)
        (fun l _ => l) "https://reg.example" ⟨"/v2/r/blobs/sha256:d", none, none, none⟩).2.length = 1) := by
  constructor
  · have h := (makeHttpRequest_redirect_bound
      (fun _ => .ok ⟨307, [("location", "https://cdn.example/x")], "", []⟩)
      (fun l _ => l) "https://reg.example" ⟨"/v2/r/blobs/sha256:d", none, none, none⟩ 3
      (fun _ => ⟨307, [("location", "https://cdn.example/x")], "", []⟩)
      rfl rfl).1 (fun i _ => ⟨rfl, rfl, by decide⟩)
    exact ⟨h.1.trans rfl, h.2⟩
  · have h := (makeHttpRequest_redirect_bound
      (fun _ => .ok ⟨200, [], "", [[1, 2]]⟩)
      (fun l _ => l) "https://reg.example" ⟨"/v2/r/blobs/sha256:d", none, none, none⟩ 3
      (fun _ => ⟨200, [], "", [[1, 2]]⟩)
      rfl rfl).2 0 (by decide) (fun i hi => absurd hi (by omega)) rfl (by decide)
      (Or.inl (by decide))
    exact ⟨h.1.trans rfl, h.2⟩

/-- A request whose own headers are fresh-empty yields a trace whose every
entry carries fresh-empty headers. -/
theorem go_all_empty_headers (server : Nat → Except MErr Resp)
    (resolve : String → String → String) (base : String) (fr : Bool) (maxR : Nat) :
    ∀ m hop req ress, req.headers = some emptyHeaders →
      ∀ e ∈ (makeHttpRequestGo server resolve base fr maxR m hop req ress).2,
        e.headers = some emptyHeaders := by
  intro m
  induction m with
  | zero =>
    intro hop req ress hreq e he
    simp only [makeHttpRequestGo] at he
    simp at he
  | succ m ih =>
    intro hop req ress hreq e he
    simp only [makeHttpRequestGo] at he
    cases hrc : requestCheck [200, 302, 307] req.path (server hop) with
    | error e2 =>
      rw [hrc] at he
      simp at he
      rw [he]
      exact hreq
    | ok resp =>
      rw [hrc] at he
      simp only [apply_ite Prod.snd] at he
      split at he
      · simp at he; rw [he]; exact hreq
      · split at he
        · simp at he; rw [he]; exact hreq
        · split at he
          · simp at he; rw [he]; exact hreq
          · rcases List.mem_cons.mp he with h1 | h1
            · rw [h1]; exact hreq
            · exact ih _ _ _ rfl e h1

/-- Every request issued after the first carries a fresh empty header set. -/
theorem go_tail_empty_headers (server : Nat → Except MErr Resp)
    (resolve : String → String → String) (base : String) (fr : Bool) (maxR : Nat) :
    ∀ m hop req ress,
      ∀ e ∈ ((makeHttpRequestGo server resolve base fr maxR m hop req ress).2.drop 1),
        e.headers = some emptyHeaders := by
  intro m hop req ress e he
  cases m with
  | zero =>
    simp only [makeHttpRequestGo] at he
    simp at he
  | succ m =>
    simp only [makeHttpRequestGo] at he
    cases hrc : requestCheck [200, 302, 307] req.path (server hop) with
    | error e2 =>
      rw [hrc] at he
      simp at he
    | ok resp =>
      rw [hrc] at he
      simp only [apply_ite Prod.snd] at he
      split at he
      · simp at he
      · split at he
        · simp at he
        · split at he
          · simp at he
          · rw [List.drop_one, List.tail_cons] at he
            exact go_all_empty_headers server resolve base fr maxR m (hop + 1)
              _ _ rfl e he

/-- The issued-request trace is either empty or starts with the request
passed in. -/
theorem go_trace_head (server : Nat → Except MErr Resp)
    (resolve : String → String → String) (base : String) (fr : Bool) (maxR : Nat)
    (m hop : Nat) (req : ReqRec) (ress : List Resp) :
    (makeHttpRequestGo server resolve base fr maxR m hop req ress).2 = [] ∨
    ∃ tl, (makeHttpRequestGo server resolve base fr maxR m hop req ress).2 = req :: tl := by
  cases m with
  | zero => exact Or.inl rfl
  | succ m =>
    simp only [makeHttpRequestGo]
    cases requestCheck [200, 302, 307] req.path (server hop) with
    | error e => exact Or.inr ⟨[], rfl⟩
    | ok resp =>
      dsimp only
      by_cases hC1 : ((!fr) = true)
      · rw [if_pos hC1]; exact Or.inr ⟨[], rfl⟩
      · rw [if_neg hC1]
        by_cases hC2 : ((!(resp.status = 302 || resp.status = 307)) = true)
        · rw [if_pos hC2]; exact Or.inr ⟨[], rfl⟩
        · rw [if_neg hC2]
          by_cases hC3 : ((!truthyStr (hGet resp.headers "location")) = true)
          · rw [if_pos hC3]; exact Or.inr ⟨[], rfl⟩
          · rw [if_neg hC3]
            exact Or.inr ⟨_, rfl⟩

/-- The issued-request trace has the redirect-chain structure: each
next-hop request is addressed at the previous location resolved against
the previous URL and carries empty headers. -/
theorem go_chainShape (server : Nat → Except MErr Resp)
    (resolve : String → String → String) (base : String) (fr : Bool) (maxR : Nat) :
    ∀ m hop req ress,
      chainShape resolve base server hop
        (makeHttpRequestGo server resolve base fr maxR m hop req ress).2 := by
  intro m
  induction m with
  | zero => intro hop req ress; exact trivial
  | succ m ih =>
    intro hop req ress
    simp only [makeHttpRequestGo]
    cases hrc : requestCheck [200, 302, 307] req.path (server hop) with
    | error e => exact trivial
    | ok resp =>
      dsimp only
      by_cases hC1 : ((!fr) = true)
      · rw [if_pos hC1]; exact trivial
      · rw [if_neg hC1]
        by_cases hC2 : ((!(resp.status = 302 || resp.status = 307)) = true)
        · rw [if_pos hC2]; exact trivial
        · rw [if_neg hC2]
          by_cases hC3 : ((!truthyStr (hGet resp.headers "location")) = true)
          · rw [if_pos hC3]; exact trivial
          · rw [if_neg hC3]
            have hloc : truthyStr (hGet resp.headers "location") = true := by
              cases hb : truthyStr (hGet resp.headers "location")
              · rw [hb] at hC3; simp at hC3
              · rfl
            cases hgl : hGet resp.headers "location" with
            | none => rw [hgl] at hloc; simp [truthyStr] at hloc
            | some loc =>
              have hne : loc ≠ "" := by
                rw [hgl] at hloc
                simpa [truthyStr] using hloc
              dsimp only [Option.getD]
              rcases go_trace_head server resolve base fr maxR m (hop + 1)
                  ⟨resolve loc (resolve req.path base), some emptyHeaders⟩
                  (ress ++ [resp]) with hnil | ⟨tl, htl⟩
              · rw [hnil]
                exact trivial
              · rw [htl]
                refine ⟨⟨resp, hrc, loc, hgl, hne, rfl⟩, ?_⟩
                have := ih (hop + 1)
                  ⟨resolve loc (resolve req.path base), some emptyHeaders⟩
                  (ress ++ [resp])
                rwa [htl] at this

/-- Replacing the caller-supplied headers changes nothing but the headers
stored in the first trace entry. -/
theorem go_headers_only_head (server : Nat → Except MErr Resp)
    (resolve : String → String → String) (base : String) (fr : Bool) (maxR : Nat)
    (m hop : Nat) (p : String) (h : Option HeadersM) (ress : List Resp) :
    makeHttpRequestGo server resolve base fr maxR m hop ⟨p, h⟩ ress =
      ((makeHttpRequestGo server resolve base fr maxR m hop ⟨p, some emptyHeaders⟩ ress).1,
        match (makeHttpRequestGo server resolve base fr maxR m hop
            ⟨p, some emptyHeaders⟩ ress).2 with
        | [] => []
        | _ :: tl => ⟨p, h⟩ :: tl) := by
  cases m with
  | zero => rfl
  | succ m =>
    simp only [makeHttpRequestGo]
    cases hrc : requestCheck [200, 302, 307] p (server hop) with
    | error e => rfl
    | ok resp =>
      dsimp only
      by_cases hC1 : ((!fr) = true)
      · simp only [if_pos hC1]
      · simp only [if_neg hC1]
        by_cases hC2 : ((!(resp.status = 302 || resp.status = 307)) = true)
        · simp only [if_pos hC2]
        · simp only [if_neg hC2]
          by_cases hC3 : ((!truthyStr (hGet resp.headers "location")) = true)
          · simp only [if_pos hC3]
          · simp only [if_neg hC3]

/-- C4: every request issued after following a redirect carries a fresh
empty header set (so caller-supplied Authorization never reaches a
redirect target), the next-hop URL is the location header resolved
against the previous request URL, and consequently the requests sent to
redirect targets are identical whatever headers (credentials) the caller
supplied. -/
theorem makeHttpRequest_clears_headers :
    ∀ (server : Nat → Except MErr Resp) (resolve : String → String → String)
      (base : String) (opts : MakeHttpOpts),
      (∀ e ∈ (makeHttpRequest server resolve base opts).2.drop 1,
        e.headers = some emptyHeaders) ∧
      chainShape resolve base server 0 (makeHttpRequest server resolve base opts).2 ∧
      (∀ h1 h2 : Option HeadersM,
        (makeHttpRequest server resolve base
            ⟨opts.path, h1, opts.followRedirects, opts.maxRedirects⟩).1 =
          (makeHttpRequest server resolve base
            ⟨opts.path, h2, opts.followRedirects, opts.maxRedirects⟩).1 ∧
        (makeHttpRequest server resolve base
            ⟨opts.path, h1, opts.followRedirects, opts.maxRedirects⟩).2.map ReqRec.path =
          (makeHttpRequest server resolve base
            ⟨opts.path, h2, opts.followRedirects, opts.maxRedirects⟩).2.map ReqRec.path ∧
        (makeHttpRequest server resolve base
            ⟨opts.path, h1, opts.followRedirects, opts.maxRedirects⟩).2.drop 1 =
          (makeHttpRequest server resolve base
            ⟨opts.path, h2, opts.followRedirects, opts.maxRedirects⟩).2.drop 1) := by
  intro server resolve base opts
  refine ⟨?_, ?_, ?_⟩
  · exact go_tail_empty_headers server resolve base _ _ _ 0 _ []
  · exact go_chainShape server resolve base _ _ _ 0 _ []
  · intro h1 h2
    unfold makeHttpRequest
    dsimp only
    rw [go_headers_only_head server resolve base _ _ _ 0 opts.path h1 [],
      go_headers_only_head server resolve base _ _ _ 0 opts.path h2 []]
    refine ⟨rfl, ?_, ?_⟩ <;>
      cases (makeHttpRequestGo server resolve base (opts.followRedirects.getD true)
        (opts.maxRedirects.getD 3) (opts.maxRedirects.getD 3) 0
        ⟨opts.path, some emptyHeaders⟩ []).2 <;> rfl

/-- C4 witness: with one 307 redirect to a CDN URL, the second request
carries empty headers, and the outcomes and redirect-target requests of
runs with Basic credentials and with no headers coincide. -/
theorem makeHttpRequest_clears_headers_witness :
    ((makeHttpRequest
        (fun n => if n = 0 then .ok ⟨307, [("location", "https://cdn.example/blob")], "", []⟩
          else .ok ⟨200, [], "", [[7]]⟩)
        (fun l _ => l) "https://reg.example"
        ⟨"/v2/r/blobs/sha256:d", some [("authorization", "Basic dXNlcjpwYXNz")], none, none⟩).2.drop 1 =
      [⟨"https://cdn.example/blob", some emptyHeaders⟩] ∧
    (⟨"https://cdn.example/blob", some emptyHeaders⟩ : ReqRec).headers = some emptyHeaders) ∧
    (makeHttpRequest
        (fun n => if n = 0 then .ok ⟨307, [("location", "https://cdn.example/blob")], "", []⟩
          else .ok ⟨200, [], "", [[7]]⟩)
        (fun l _ => l) "https://reg.example"
        ⟨"/v2/r/blobs/sha256:d", some [("authorization", "Basic dXNlcjpwYXNz")], none, none⟩).1 =
      (makeHttpRequest
        (fun n => if n = 0 then .ok ⟨307, [("location", "https://cdn.example/blob")], "", []⟩
          else .ok ⟨200, [], "", [[7]]⟩)
        (fun l _ => l) "https://reg.example"
        ⟨"/v2/r/blobs/sha256:d", none, none, none⟩).1 := by
  refine ⟨⟨rfl, ?_⟩, ?_⟩
  · exact (makeHttpRequest_clears_headers
      (fun n => if n = 0 then .ok ⟨307, [("location", "https://cdn.example/blob")], "", []⟩
        else .ok ⟨200, [], "", [[7]]⟩)
      (fun l _ => l) "https://reg.example"
      ⟨"/v2/r/blobs/sha256:d", some [("authorization", "Basic dXNlcjpwYXNz")], none, none⟩).1
      ⟨"https://cdn.example/blob", some emptyHeaders⟩ (by decide)
  · exact ((makeHttpRequest_clears_headers
      (fun n => if n = 0 then .ok ⟨307, [("location", "https://cdn.example/blob")], "", []⟩
        else .ok ⟨200, [], "", [[7]]⟩)
      (fun l _ => l) "https://reg.example"
      ⟨"/v2/r/blobs/sha256:d", some [("authorization", "Basic dXNlcjpwYXNz")], none, none⟩).2.2
      (some [("authorization", "Basic dXNlcjpwYXNz")]) none).1

/-- C1, counterexample: a single 200 response whose docker-content-digest
header equals the requested digest (the sha256 of the empty byte string)
but whose body bytes are [97]: createBlobReadStream returns the raw
terminal stream with no end-of-stream error, although the bytes hash to a
different value than the declared digest — the validationStream
pipeThrough is commented out in the source. -/
theorem createBlobReadStream_no_eos_check :
    createBlobReadStream
        "sha256:e3b0c44298fc1c149afbf4c8996fb92427ae41e4649b934ca495991b7852b855"
        [⟨200, [("docker-content-digest",
          "sha256:e3b0c44298fc1c149afbf4c8996fb92427ae41e4649b934ca495991b7852b855")], "", [[97]]⟩] =
      .ok ([⟨200, [("docker-content-digest",
          "sha256:e3b0c44298fc1c149afbf4c8996fb92427ae41e4649b934ca495991b7852b855")], "", [[97]]⟩],
        ⟨[[97]], none⟩) ∧
    sha256Hex ([[97]] : List (List Nat)).flatten ≠
      "e3b0c44298fc1c149afbf4c8996fb92427ae41e4649b934ca495991b7852b855" := by
  exact ⟨rfl, by decide⟩

/-- C1, amended: if the first response carries a docker-content-digest
header that differs from the requested digest, the call fails with
BadDigestError before any stream is handed to the caller; when the header
is present and matches, the terminal byte stream is returned raw, with no
digest-verifying transform attached (the pipeThrough of validationStream
is commented out pending node 18), so bytes hashing to a different value
than the declared digest do not fail at end-of-stream; the validation
transform itself forwards every chunk unchanged and errors at
end-of-stream exactly when the accumulated sha256 differs from the
expected digest. -/
theorem createBlobReadStream_precheck_only :
    (∀ (digest : String) (first : Resp) (rest : List Resp) (dcd : String) (info : DcdInfo),
      hGet first.headers "docker-content-digest" = some dcd → dcd ≠ "" →
      parseDockerContentDigest dcd = .ok info →
      (info.raw ≠ digest →
        createBlobReadStream digest (first :: rest) =
          .error (.badDigest ("Docker-Content-Digest header, " ++ info.raw ++
            ", does not match " ++ "given digest, " ++ digest))) ∧
      (info.raw = digest →
        createBlobReadStream digest (first :: rest) =
          .ok (first :: rest,
            ⟨((first :: rest).getLast (by simp)).chunks, none⟩))) ∧
    (∀ (info : DcdInfo) (chunks : List (List Nat)),
      (validationStreamRun info chunks).1 = chunks ∧
      ((validationStreamRun info chunks).2 = none ↔
        info.expectedDigest = sha256Hex chunks.flatten)) := by
  constructor
  · intro digest first rest dcd info hdcd hne hparse
    have ht : truthyStr (some dcd) = true := by simpa [truthyStr] using hne
    constructor
    · intro hraw
      unfold createBlobReadStream
      dsimp only
      rw [hdcd]
      rw [if_pos ht]
      dsimp only [Option.getD]
      rw [hparse, bindOk]
      rw [if_pos hraw]
    · intro hraw
      unfold createBlobReadStream
      dsimp only
      rw [hdcd]
      rw [if_pos ht]
      dsimp only [Option.getD]
      rw [hparse, bindOk]
      rw [if_neg (fun hcontra => hcontra hraw)]
      rfl
  · intro info chunks
    refine ⟨rfl, ?_⟩
    unfold validationStreamRun
    by_cases heq : info.expectedDigest = sha256Hex chunks.flatten
    · simp [heq]
    · simp [heq]

/-- C1 witness: a matching declared digest returns the raw terminal
stream, and the (unwired) validation transform would reject these bytes
at end-of-stream. -/
theorem createBlobReadStream_precheck_only_witness :
    (createBlobReadStream "sha256:00ff"
        [⟨200, [("docker-content-digest", "sha256:00ff")], "", [[1], [2]]⟩] =
      .ok ([⟨200, [("docker-content-digest", "sha256:00ff")], "", [[1], [2]]⟩],
        ⟨[[1], [2]], none⟩)) ∧
    (validationStreamRun ⟨"sha256:00ff", "sha256", "00ff"⟩ [[1], [2]]).2 ≠ none := by
  constructor
  · exact (createBlobReadStream_precheck_only.1 "sha256:00ff"
      ⟨200, [("docker-content-digest", "sha256:00ff")], "", [[1], [2]]⟩ []
      "sha256:00ff" ⟨"sha256:00ff", "sha256", "00ff"⟩ rfl (by decide) rfl).2 rfl
  · intro hnone
    have := ((createBlobReadStream_precheck_only.2
      ⟨"sha256:00ff", "sha256", "00ff"⟩ [[1], [2]]).2).mp hnone
    exact absurd this (by decide)

/-- A truthy JS value is a defined non-null value. -/
theorem truthy_some {v : Option Json} (h : truthy v = true) :
    ∃ j, v = some j ∧ j ≠ Json.null := by
  cases v with
  | none => cases h
  | some j =>
    cases j with
    | null => cases h
    | bool b => exact ⟨_, rfl, by intro hh; cases hh⟩
    | num q => exact ⟨_, rfl, by intro hh; cases hh⟩
    | str s => exact ⟨_, rfl, by intro hh; cases hh⟩
    | arr l => exact ⟨_, rfl, by intro hh; cases hh⟩
    | obj ms => exact ⟨_, rfl, by intro hh; cases hh⟩

/-- lastIndexOf misses a char that does not occur. -/
theorem lastIdxOf_eq_none {c : Char} {l : List Char} (h : c ∉ l) :
    lastIdxOf c l = none := by
  induction l with
  | nil => rfl
  | cons x tl ih =>
    have hx : ¬x = c := fun hh => h (hh ▸ List.mem_cons_self x tl)
    have htl : c ∉ tl := fun hh => h (List.mem_cons_of_mem x hh)
    unfold lastIdxOf
    rw [ih htl]
    simp [hx]

/-- lastIndexOf finds the separator when the char is absent to its right. -/
theorem lastIdxOf_append_sep {c : Char} (a : List Char) {b : List Char}
    (hb : c ∉ b) : lastIdxOf c (a ++ c :: b) = some a.length := by
  induction a with
  | nil =>
    rw [List.nil_append]
    unfold lastIdxOf
    rw [lastIdxOf_eq_none hb]
    simp
  | cons x tl ih =>
    rw [List.cons_append]
    unfold lastIdxOf
    rw [ih]
    simp [List.length_cons]

/-- lastIndexOf ignores a suffix free of the char. -/
theorem lastIdxOf_append_right {c : Char} (a : List Char) {b : List Char}
    (hb : c ∉ b) : lastIdxOf c (a ++ b) = lastIdxOf c a := by
  induction a with
  | nil =>
    rw [List.nil_append, lastIdxOf_eq_none hb]
    rfl
  | cons x tl ih =>
    rw [List.cons_append]
    unfold lastIdxOf
    rw [ih]

/-- A found last index lies inside the list. -/
theorem lastIdxOf_lt_length {c : Char} {l : List Char} {k : Nat}
    (h : lastIdxOf c l = some k) : k < l.length := by
  induction l generalizing k with
  | nil => cases h
  | cons x tl ih =>
    unfold lastIdxOf at h
    cases htl : lastIdxOf c tl with
    | some n =>
      rw [htl] at h
      injection h with h2
      subst h2
      exact Nat.succ_lt_succ (ih htl)
    | none =>
      rw [htl] at h
      by_cases hx : x = c
      · rw [if_pos hx] at h
        injection h with h2
        subst h2
        exact Nat.succ_pos _
      · rw [if_neg hx] at h
        cases h

/-- indexOf misses a char that does not occur. -/
theorem idxOfSub_single_none {c : Char} {l : List Char} (h : c ∉ l) :
    idxOfSub [c] l = none := by
  induction l with
  | nil => rfl
  | cons x tl ih =>
    have hx : ¬x = c := fun hh => h (hh ▸ List.mem_cons_self x tl)
    have htl : c ∉ tl := fun hh => h (List.mem_cons_of_mem x hh)
    unfold idxOfSub
    rw [ih htl]
    simp [List.isPrefixOf, List.isPrefixOf, hx]
    intro hc
    exact absurd hc.symm hx

/-- indexOf finds the separator when the char is absent to its left. -/
theorem idxOfSub_single_append {c : Char} {a : List Char} (b : List Char)
    (ha : c ∉ a) : idxOfSub [c] (a ++ c :: b) = some a.length := by
  induction a with
  | nil =>
    unfold idxOfSub
    simp [List.isPrefixOf]
  | cons x tl ih =>
    have hx : ¬x = c := fun hh => ha (hh ▸ List.mem_cons_self x tl)
    have htl : c ∉ tl := fun hh => ha (List.mem_cons_of_mem x hh)
    rw [List.cons_append]
    unfold idxOfSub
    rw [ih htl]
    have hpre : [c].isPrefixOf (x :: (tl ++ c :: b)) = false := by
      simp [List.isPrefixOf]
      intro hc
      exact absurd hc.symm hx
    rw [hpre]
    simp [List.length_cons]

/-- A slash-free list contains no protocol separator. -/
theorem noSlashNoProto {l : List Char} (h : '/' ∉ l) :
    idxOfSub "://".data l = none := by
  induction l with
  | nil => rfl
  | cons x tl ih =>
    have htl : '/' ∉ tl := fun hh => h (List.mem_cons_of_mem x hh)
    unfold idxOfSub
    rw [ih htl]
    have : "://".data.isPrefixOf (x :: tl) = false := by
      cases tl with
      | nil => simp [List.isPrefixOf]
      | cons y tl2 =>
        have hy : ¬y = '/' := fun hh =>
          htl (hh ▸ List.mem_cons_self y tl2)
        simp [List.isPrefixOf, String.data]
        intro hc hcy
        exact absurd hcy.symm hy
    rw [this]
    simp

/-- A protocol separator needs a slash, so a name-only repo string has
none. -/
theorem noProto {idx name : List Char} (hi : '/' ∉ idx) (hn : '/' ∉ name) :
    idxOfSub "://".data (idx ++ '/' :: name) = none := by
  induction idx with
  | nil =>
    rw [List.nil_append]
    unfold idxOfSub
    rw [noSlashNoProto hn]
    simp [List.isPrefixOf]
  | cons x tl ih =>
    have hx : ¬x = '/' := fun hh => hi (hh ▸ List.mem_cons_self x tl)
    have htl : '/' ∉ tl := fun hh => hi (List.mem_cons_of_mem x hh)
    rw [List.cons_append]
    unfold idxOfSub
    rw [ih htl]
    have : "://".data.isPrefixOf (x :: (tl ++ '/' :: name)) = false := by
      cases tl with
      | nil =>
        simp [List.isPrefixOf]
        intro hc
        cases name with
        | nil => simp [List.isPrefixOf]
        | cons z tl3 =>
          simp [List.isPrefixOf]
          exact fun hz => hn (by rw [hz]; exact List.mem_cons_self z tl3)
      | cons y tl2 =>
        have hy : ¬y = '/' := fun hh =>
          htl (hh ▸ List.mem_cons_self y tl2)
        simp [List.isPrefixOf, String.data]
        intro hc hcy
        exact absurd hcy.symm hy
    rw [this]
    simp

/-- parseIndex on an explicit host-looking non-official index name. -/
theorem parseIndex_explicit {idx : List Char} (hne : idx ≠ [])
    (hslash : '/' ∉ idx)
    (hlook : (!containsChar idx '.' && !containsChar idx ':' &&
      decide (idx ≠ "localhost".data)) = false)
    (hnd : idx ≠ DEFAULT_INDEX_NAME)
    (hni : idx ≠ "index.".data ++ DEFAULT_INDEX_NAME) :
    parseIndex (some idx) =
      .ok ⟨idx, false, if isLocalhost idx then Scheme.http else Scheme.https⟩ := by
  have hdls : idx ≠ DEFAULT_LOGIN_SERVERNAME := fun hh =>
    hslash (hh ▸ (by decide : '/' ∈ DEFAULT_LOGIN_SERVERNAME))
  have hie : idx.isEmpty = false := by
    cases idx with
    | nil => exact absurd rfl hne
    | cons x tl => rfl
  have hlast : idx.getLast? ≠ some '/' := fun hh => by
    obtain ⟨h2, heq⟩ := List.mem_getLast?_eq_getLast (Option.mem_def.mpr hh)
    exact hslash (heq.symm ▸ List.getLast_mem h2)
  have hcont : containsChar idx '/' = false := by
    unfold containsChar
    rw [idxOfSub_single_none hslash]
    rfl
  have hlookP : ¬((containsChar idx '.' = false ∧ containsChar idx ':' = false) ∧
      ¬idx = "localhost".data) := by
    intro hc
    obtain ⟨⟨h1, h2⟩, h3⟩ := hc
    rw [h1, h2] at hlook
    simp at hlook
    exact h3 hlook
  have hni2 : ¬idx = 'i' :: 'n' :: 'd' :: 'e' :: 'x' :: '.' :: DEFAULT_INDEX_NAME := by
    simpa using hni
  unfold parseIndex
  simp [Option.getD, hie, hdls, noSlashNoProto hslash, hlookP, hlast, hcont,
    hnd, hni2, pure, Except.pure, bindOk, hne]

/-- splitIntoTwo at a separator absent from the left part. -/
theorem splitIntoTwo_sep {c : Char} {a : List Char} (b : List Char)
    (ha : c ∉ a) : splitIntoTwo (a ++ c :: b) [c] = [a, b] := by
  unfold splitIntoTwo jsSlice jsSliceFrom
  rw [idxOfSub_single_append b ha]
  dsimp only
  rw [List.drop_zero, List.take_left]
  have hsplit : a ++ c :: b = (a ++ [c]) ++ b := by simp
  rw [hsplit, List.drop_left' (by simp)]

/-- splitIntoTwo without the separator. -/
theorem splitIntoTwo_none {c : Char} {a : List Char} (ha : c ∉ a) :
    splitIntoTwo a [c] = [a] := by
  unfold splitIntoTwo
  rw [idxOfSub_single_none ha]

/-- parseRepo on an explicit non-official index and a bare repo name. -/
theorem parseRepo_explicit {idx name : List Char} (hne : idx ≠ [])
    (hslash : '/' ∉ idx)
    (hlook : (!containsChar idx '.' && !containsChar idx ':' &&
      decide (idx ≠ "localhost".data)) = false)
    (hnd : idx ≠ DEFAULT_INDEX_NAME)
    (hni : idx ≠ "index.".data ++ DEFAULT_INDEX_NAME)
    (hnslash : '/' ∉ name) (hvalid : validRepoChars name = true) :
    parseRepo (idx ++ '/' :: name) .absent =
      .ok ⟨⟨idx, false, if isLocalhost idx then Scheme.http else Scheme.https⟩,
        false, name, idx ++ '/' :: name, idx ++ '/' :: name⟩ := by
  have hlookP : ¬((containsChar idx '.' = false ∧ containsChar idx ':' = false) ∧
      ¬idx = "localhost".data) := by
    intro hc
    obtain ⟨⟨h1, h2⟩, h3⟩ := hc
    rw [h1, h2] at hlook
    simp at hlook
    exact h3 hlook
  unfold parseRepo
  rw [noProto hslash hnslash, splitIntoTwo_sep name hslash]
  simp [hlookP, parseIndex_explicit hne hslash hlook hnd hni, bindOk, pureBind,
    splitIntoTwo_none hnslash, hvalid, pure, Except.pure]

/-- Slicing after a separator yields the right part. -/
theorem jsSliceFrom_sep (a : List Char) (c : Char) (b : List Char) :
    jsSliceFrom (a ++ c :: b) (a.length + 1) = b := by
  unfold jsSliceFrom
  have hsplit : a ++ c :: b = (a ++ [c]) ++ b := by simp
  rw [hsplit, List.drop_left' (by simp)]

/-- Slicing up to a separator yields the left part. -/
theorem jsSlice_sep (a : List Char) (c : Char) (b : List Char) :
    jsSlice (a ++ c :: b) 0 a.length = a := by
  unfold jsSlice
  rw [List.drop_zero, List.take_left]

/-- The tag-only round trip: parsing INDEX/NAME:TAG and reassembling
canonicalRef reproduces the input. -/
theorem roundTrip_tag {idx name tg : List Char} (hne : idx ≠ [])
    (hslash : '/' ∉ idx) (hat : '@' ∉ idx)
    (hlook : (!containsChar idx '.' && !containsChar idx ':' &&
      decide (idx ≠ "localhost".data)) = false)
    (hnd : idx ≠ DEFAULT_INDEX_NAME)
    (hni : idx ≠ "index.".data ++ DEFAULT_INDEX_NAME)
    (hnslash : '/' ∉ name) (hnat : '@' ∉ name)
    (hvalid : validRepoChars name = true)
    (htne : tg ≠ []) (htc : ':' ∉ tg) (hts : '/' ∉ tg) (hta : '@' ∉ tg) :
    parseRepoAndRef (idx ++ '/' :: name ++ ':' :: tg) .absent =
      .ok { toRegistryRepo :=
              ⟨⟨idx, false, if isLocalhost idx then Scheme.http else Scheme.https⟩,
                false, name, idx ++ '/' :: name, idx ++ '/' :: name⟩,
            digest := none, tag := some tg,
            canonicalRef := idx ++ '/' :: name ++ ':' :: tg } := by
  have hanone : lastIdxOf '@' (idx ++ '/' :: name ++ ':' :: tg) = none := by
    refine lastIdxOf_eq_none ?_
    intro hm
    rcases List.mem_append.mp hm with hm | hm
    · rcases List.mem_append.mp hm with hm | hm
      · exact hat hm
      · rcases List.mem_cons.mp hm with hm | hm
        · exact absurd hm (by decide)
        · exact hnat hm
    · rcases List.mem_cons.mp hm with hm | hm
      · exact absurd hm (by decide)
      · exact hta hm
  have hcolon : lastIdxOf ':' ((idx ++ '/' :: name) ++ ':' :: tg) =
      some (idx ++ '/' :: name).length := lastIdxOf_append_sep _ htc
  have hslashL : lastIdxOf '/' ((idx ++ '/' :: name) ++ ':' :: tg) =
      some idx.length := by
    rw [lastIdxOf_append_right _ (by
      intro hm
      rcases List.mem_cons.mp hm with hm | hm
      · exact absurd hm (by decide)
      · exact hts hm)]
    exact lastIdxOf_append_sep idx hnslash
  have htgne : tg.isEmpty = false := by
    cases tg with
    | nil => exact absurd rfl htne
    | cons x l => rfl
  unfold parseRepoAndRef
  rw [hanone]
  dsimp only
  rw [hcolon, hslashL]
  dsimp only
  rw [if_pos (by simp)]
  rw [jsSliceFrom_sep, jsSlice_sep]
  rw [parseRepo_explicit hne hslash hlook hnd hni hnslash hvalid, bindOk]
  dsimp only [pure, Except.pure]
  simp [htgne]

/-- The digest-only round trip: parsing INDEX/NAME@DIGEST and reassembling
canonicalRef reproduces the input; no default tag is attached. -/
theorem roundTrip_digest {idx name dg : List Char} (hne : idx ≠ [])
    (hslash : '/' ∉ idx)
    (hlook : (!containsChar idx '.' && !containsChar idx ':' &&
      decide (idx ≠ "localhost".data)) = false)
    (hnd : idx ≠ DEFAULT_INDEX_NAME)
    (hni : idx ≠ "index.".data ++ DEFAULT_INDEX_NAME)
    (hnslash : '/' ∉ name) (hncolon : ':' ∉ name)
    (hvalid : validRepoChars name = true)
    (hdne : dg ≠ []) (hdat : '@' ∉ dg) :
    parseRepoAndRef (idx ++ '/' :: name ++ '@' :: dg) .absent =
      .ok { toRegistryRepo :=
              ⟨⟨idx, false, if isLocalhost idx then Scheme.http else Scheme.https⟩,
                false, name, idx ++ '/' :: name, idx ++ '/' :: name⟩,
            digest := some dg, tag := none,
            canonicalRef := idx ++ '/' :: name ++ '@' :: dg } := by
  have hdg : lastIdxOf '@' ((idx ++ '/' :: name) ++ '@' :: dg) =
      some (idx ++ '/' :: name).length := lastIdxOf_append_sep _ hdat
  have hdgne : dg.isEmpty = false := by
    cases dg with
    | nil => exact absurd rfl hdne
    | cons x l => rfl
  have hslashL : lastIdxOf '/' (idx ++ '/' :: name) = some idx.length :=
    lastIdxOf_append_sep idx hnslash
  have hcolonR : lastIdxOf ':' (idx ++ '/' :: name) = lastIdxOf ':' idx :=
    lastIdxOf_append_right idx (by
      intro hm
      rcases List.mem_cons.mp hm with hm | hm
      · exact absurd hm (by decide)
      · exact hncolon hm)
  unfold parseRepoAndRef
  rw [hdg]
  dsimp only
  rw [jsSliceFrom_sep, jsSlice_sep, hcolonR, hslashL]
  cases hci : lastIdxOf ':' idx with
  | none =>
    dsimp only
    rw [parseRepo_explicit hne hslash hlook hnd hni hnslash hvalid, bindOk]
    dsimp only [pure, Except.pure]
    simp [hdgne]
  | some k =>
    have hk := lastIdxOf_lt_length hci
    dsimp only
    rw [if_neg (by omega)]
    rw [parseRepo_explicit hne hslash hlook hnd hni hnslash hvalid, bindOk]
    dsimp only [pure, Except.pure]
    simp [hdgne]

/-- The tag-and-digest round trip: parsing INDEX/NAME:TAG@DIGEST and
reassembling canonicalRef reproduces the input. -/
theorem roundTrip_tag_digest {idx name tg dg : List Char} (hne : idx ≠ [])
    (hslash : '/' ∉ idx)
    (hlook : (!containsChar idx '.' && !containsChar idx ':' &&
      decide (idx ≠ "localhost".data)) = false)
    (hnd : idx ≠ DEFAULT_INDEX_NAME)
    (hni : idx ≠ "index.".data ++ DEFAULT_INDEX_NAME)
    (hnslash : '/' ∉ name)
    (hvalid : validRepoChars name = true)
    (htne : tg ≠ []) (htc : ':' ∉ tg) (hts : '/' ∉ tg)
    (hdne : dg ≠ []) (hdat : '@' ∉ dg) :
    parseRepoAndRef (idx ++ '/' :: name ++ ':' :: tg ++ '@' :: dg) .absent =
      .ok { toRegistryRepo :=
              ⟨⟨idx, false, if isLocalhost idx then Scheme.http else Scheme.https⟩,
                false, name, idx ++ '/' :: name, idx ++ '/' :: name⟩,
            digest := some dg, tag := some tg,
            canonicalRef := idx ++ '/' :: name ++ ':' :: tg ++ '@' :: dg } := by
  have hdg : lastIdxOf '@' ((idx ++ '/' :: name ++ ':' :: tg) ++ '@' :: dg) =
      some (idx ++ '/' :: name ++ ':' :: tg).length := lastIdxOf_append_sep _ hdat
  have hdgne : dg.isEmpty = false := by
    cases dg with
    | nil => exact absurd rfl hdne
    | cons x l => rfl
  have htgne : tg.isEmpty = false := by
    cases tg with
    | nil => exact absurd rfl htne
    | cons x l => rfl
  have hcolon : lastIdxOf ':' ((idx ++ '/' :: name) ++ ':' :: tg) =
      some (idx ++ '/' :: name).length := lastIdxOf_append_sep _ htc
  have hslashL : lastIdxOf '/' ((idx ++ '/' :: name) ++ ':' :: tg) =
      some idx.length := by
    rw [lastIdxOf_append_right _ (by
      intro hm
      rcases List.mem_cons.mp hm with hm | hm
      · exact absurd hm (by decide)
      · exact hts hm)]
    exact lastIdxOf_append_sep idx hnslash
  unfold parseRepoAndRef
  rw [hdg]
  dsimp only
  rw [jsSliceFrom_sep, jsSlice_sep, hcolon, hslashL]
  dsimp only
  rw [if_pos (by simp)]
  rw [jsSliceFrom_sep, jsSlice_sep]
  rw [parseRepo_explicit hne hslash hlook hnd hni hnslash hvalid, bindOk]
  dsimp only [pure, Except.pure]
  simp [htgne, hdgne]

/-- C9 counterexample: the valid repo string "busybox" parses to
canonicalRef "docker.io/busybox:latest", not back to itself (the default
index and default tag are materialized in the canonical reference). -/
theorem parseRepoAndRef_claim_false :
    Except.map RegistryImage.canonicalRef (parseRepoAndRef "busybox".data .absent) =
      .ok "docker.io/busybox:latest".data
    ∧ "docker.io/busybox:latest".data ≠ "busybox".data :=
  ⟨rfl, by decide⟩

/-- C9: [amended] The canonicalRef round trip does not hold for all valid
inputs (see the busybox counterexample), but it does hold on
already-canonical references.  This is proved for a family of them: an
explicit non-official host-looking index, a bare repo name, and an
explicit tag, digest or both; for such input the parse succeeds, keeps the
written index, name, tag and digest, and canonicalRef reproduces the input
string exactly.  The family is sufficient, not exhaustive: the final two
conjuncts show that the already-canonical official-index reference
docker.io/busybox:latest and the namespaced localhost:5000/ns/blarg:mytag
round-trip as well. -/
theorem parseRepoAndRef_round_trip (idx name : List Char)
    (t d : Option (List Char))
    (hne : idx ≠ []) (hslash : '/' ∉ idx) (hat : '@' ∉ idx)
    (hlook : (!containsChar idx '.' && !containsChar idx ':' &&
      decide (idx ≠ "localhost".data)) = false)
    (hnd : idx ≠ DEFAULT_INDEX_NAME)
    (hni : idx ≠ "index.".data ++ DEFAULT_INDEX_NAME)
    (hnslash : '/' ∉ name) (hncolon : ':' ∉ name) (hnat : '@' ∉ name)
    (hvalid : validRepoChars name = true)
    (htag : ∀ tg, t = some tg → tg ≠ [] ∧ ':' ∉ tg ∧ '/' ∉ tg ∧ '@' ∉ tg)
    (hdig : ∀ dg, d = some dg → dg ≠ [] ∧ '@' ∉ dg)
    (hsome : t.isSome = true ∨ d.isSome = true) :
    parseRepoAndRef
        (idx ++ '/' :: name ++
          (match t with | some tg => ':' :: tg | none => []) ++
          (match d with | some dg => '@' :: dg | none => [])) .absent =
      .ok { toRegistryRepo :=
              ⟨⟨idx, false, if isLocalhost idx then Scheme.http else Scheme.https⟩,
                false, name, idx ++ '/' :: name, idx ++ '/' :: name⟩,
            digest := d, tag := t,
            canonicalRef :=
              idx ++ '/' :: name ++
                (match t with | some tg => ':' :: tg | none => []) ++
                (match d with | some dg => '@' :: dg | none => []) }
    ∧ Except.map RegistryImage.canonicalRef
        (parseRepoAndRef "docker.io/busybox:latest".data .absent) =
          .ok "docker.io/busybox:latest".data
    ∧ Except.map RegistryImage.canonicalRef
        (parseRepoAndRef "localhost:5000/ns/blarg:mytag".data .absent) =
          .ok "localhost:5000/ns/blarg:mytag".data := by
  refine ⟨?_, rfl, rfl⟩
  cases t with
  | some tg =>
    obtain ⟨htne, htc, hts, hta⟩ := htag tg rfl
    cases d with
    | some dg =>
      obtain ⟨hdne, hdat⟩ := hdig dg rfl
      exact roundTrip_tag_digest hne hslash hlook hnd hni hnslash hvalid
        htne htc hts hdne hdat
    | none =>
      simpa using roundTrip_tag hne hslash hat hlook hnd hni hnslash hnat
        hvalid htne htc hts hta
  | none =>
    cases d with
    | some dg =>
      obtain ⟨hdne, hdat⟩ := hdig dg rfl
      simpa using roundTrip_digest hne hslash hlook hnd hni hnslash hncolon
        hvalid hdne hdat
    | none =>
      rcases hsome with h | h <;> simp at h

/-- The amended round trip evaluated at
localhost:5000/blarg:mytag@sha256:cafebabe. -/
theorem parseRepoAndRef_round_trip_witness :
    parseRepoAndRef "localhost:5000/blarg:mytag@sha256:cafebabe".data .absent =
      .ok { toRegistryRepo :=
              ⟨⟨"localhost:5000".data, false, Scheme.http⟩, false, "blarg".data,
                "localhost:5000/blarg".data, "localhost:5000/blarg".data⟩,
            digest := some "sha256:cafebabe".data, tag := some "mytag".data,
            canonicalRef := "localhost:5000/blarg:mytag@sha256:cafebabe".data } :=
  (parseRepoAndRef_round_trip "localhost:5000".data "blarg".data
    (some "mytag".data) (some "sha256:cafebabe".data)
    (by decide) (by decide) (by decide) (by decide) (by decide) (by decide)
    (by decide) (by decide) (by decide) (by decide)
    (by
      intro tg h
      injection h with h2
      subst h2
      exact ⟨by decide, by decide, by decide, by decide⟩)
    (by
      intro dg h
      injection h with h2
      subst h2
      exact ⟨by decide, by decide⟩)
    (Or.inl rfl)).1

end RC
